import Mathlib

set_option maxRecDepth 100000

/-!
Verification of the seat-assignment core of the AirlineWebsite flight roster
manager (src/app.py): the seat map builder `build_seat_map`, the assignment
engine `assign_seats`, the grid projector `build_seat_rows`, and the manual
seat edit validator of the `update_seat` route.

The Python code is shallowly embedded: dict-shaped passenger records become a
structure with optional fields, Python string operations (strip / upper /
indexing / digit filtering) are modelled structurally on the character list of
the string (ASCII scope, which covers every seat identifier the code builds),
and the in-place mutation of the passenger list is modelled by threading the
list through explicit state.
-/

/-- Characters stripped by str.strip (ASCII whitespace scope). -/
def isPySpace (c : Char) : Bool :=
  c = ' ' || c = '\t' || c = '\n' || c = '\x0d' || c = '\x0b' || c = '\x0c'

/-- str.upper on one character (ASCII scope). -/
def upperChar (c : Char) : Char :=
  if c.toNat ≥ 97 ∧ c.toNat ≤ 122 then Char.ofNat (c.toNat - 32) else c

/-- str.upper (ASCII scope). -/
def upperStr (s : String) : String :=
  ⟨s.data.map upperChar⟩

/-- str.strip (ASCII whitespace scope). -/
def stripStr (s : String) : String :=
  ⟨((s.data.dropWhile isPySpace).reverse.dropWhile isPySpace).reverse⟩

/-- The normalisation `sn.strip().upper()` applied to seat numbers. -/
def normSeat (s : String) : String :=
  upperStr (stripStr s)

/-- Value of `int(''.join(ch for ch in sn if ch.isdigit()))` on the characters
of a seat-number string (0 when no digit occurs, where Python would raise). -/
def digitsVal (l : List Char) : Nat :=
  l.foldl (fun acc c => if c.isDigit then acc * 10 + (c.toNat - 48) else acc) 0

/-- Row number parsed from a seat-number string, `int(digits of sn)`. -/
def rowOf (sn : String) : Nat :=
  digitsVal sn.data

/-- Python `sn[-1]`: the last character (space placeholder on the empty
string, where Python would raise; no seat produced by the code is empty). -/
def lastChar (sn : String) : Char :=
  sn.data.getLastD ' '

/-- Side split of §4.2 step 3: `col in ["A","B","C"]` selects the left side. -/
def isLeftCol (sn : String) : Bool :=
  lastChar sn = 'A' || lastChar sn = 'B' || lastChar sn = 'C'

/-- The seat-number string f-string `f"{r}{col}"`. -/
def seatName (r : Nat) (c : Char) : String :=
  toString r ++ String.singleton c

/-- One seat of the inventory: dict {"seat_no": ..., "seat_type": ...}. -/
structure Seat where
  seat_no : String
  seat_type : String
deriving Repr, DecidableEq

/-- Passenger record restricted to the fields the seating core reads
(app.py passes dicts; absent/None fields are `none`). -/
structure Passenger where
  id : Int
  age : Option Int
  seat_type : Option String
  seat_no : Option String
  group_id : Option Int
deriving Repr, DecidableEq

/-- Per-aircraft layout table of build_seat_map: (rows, business_rows), with
the (20, 3) default for unknown vehicle types. -/
def cfg (vehicle_type : String) : Nat × Nat :=
  if vehicle_type = "A320" then (20, 3)
  else if vehicle_type = "B737" then (22, 4)
  else if vehicle_type = "A321" then (24, 5)
  else (20, 3)

/-- Row-major seat inventory for a row/business-row count: rows 1..rows,
columns ABCDEF, business for rows up to business_rows. -/
def mkSeatMap (rows business_rows : Nat) : List Seat :=
  (List.range rows).flatMap (fun r0 =>
    "ABCDEF".data.map (fun col =>
      { seat_no := seatName (r0 + 1) col
        seat_type := if r0 + 1 ≤ business_rows then "business" else "economy" }))

/-- build_seat_map (app.py:425): seat inventory of a vehicle type. -/
def build_seat_map (vehicle_type : String) : List Seat :=
  mkSeatMap (cfg vehicle_type).1 (cfg vehicle_type).2

/-- The dict `seat_type_by_no` built from the seat map (last writer wins,
as in a Python dict comprehension). -/
def seatTypeByNo (vehicle_type : String) (sn : String) : Option String :=
  ((build_seat_map vehicle_type).reverse.find? (fun s => s.seat_no = sn)).map (fun s => s.seat_type)

/-- The set `all_seats`: every seat number of the seat map. -/
def allSeats (vehicle_type : String) : List String :=
  (build_seat_map vehicle_type).map (fun s => s.seat_no)

/-- Truthiness of `p.get("seat_no")`: present and non-empty. -/
def hasSeat (p : Passenger) : Bool :=
  match p.seat_no with
  | some s => s ≠ ""
  | none => false

/-- is_infant (app.py:457): age is not None and int(age) <= 2. -/
def is_infant (p : Passenger) : Bool :=
  match p.age with
  | some a => a ≤ 2
  | none => false

/-- Python `(p.get("seat_type") or "economy")`: None and "" both fall back. -/
def effType (p : Passenger) : String :=
  match p.seat_type with
  | some s => if s = "" then "economy" else s
  | none => "economy"

/-- Normalisation pass of assign_seats (app.py:449-455) on one passenger:
a truthy seat_no is replaced by its stripped upper-cased form. -/
def normalizePass (p : Passenger) : Passenger :=
  match p.seat_no with
  | some s => if s = "" then p else { p with seat_no := some (normSeat s) }
  | none => p

/-- Contribution of one passenger to the initial "used" set: the normalised
seat number when the incoming seat_no is truthy. -/
def usedEntry (p : Passenger) : Option String :=
  match p.seat_no with
  | some s => if s = "" then none else some (normSeat s)
  | none => none

/-- The initial "used" set: normalised seat numbers of every passenger whose
incoming seat_no is truthy (in passenger-list order). -/
def usedInit (ps : List Passenger) : List String :=
  ps.filterMap usedEntry

/-- Free seat numbers (seat-map order) once the used set is removed. -/
def freeSeatNos (vehicle_type : String) (used : List String) : List String :=
  ((build_seat_map vehicle_type).filter (fun s => !(used.contains s.seat_no))).map (fun s => s.seat_no)

/-- sort_key comparison (app.py:471): by (row number, last character). -/
def sortKeyLe (a b : String) : Bool :=
  rowOf a < rowOf b || (rowOf a = rowOf b && lastChar a ≤ lastChar b)

/-- Sorted insertion used by sortBy. -/
def insBy (le : α → α → Bool) (a : α) : List α → List α
  | [] => [a]
  | b :: bs => if le a b then a :: b :: bs else b :: insBy le a bs

/-- Structural insertion sort standing in for Python sorted; every list the
code sorts has pairwise-distinct keys, so any correct sort agrees with it. -/
def sortBy (le : α → α → Bool) : List α → List α
  | [] => []
  | a :: as => insBy le a (sortBy le as)

/-- Structural dedup (the key set of the Python rows dict; only membership
matters since the keys are sorted before use). -/
def dedup : List Nat → List Nat
  | [] => []
  | x :: xs => if (dedup xs).contains x then dedup xs else x :: dedup xs

/-- Row numbers (ascending) that hold at least one free seat — the iteration
domain `sorted(rows.keys())` of the group pass. -/
def rowKeysSorted (vehicle_type : String) (used : List String) : List Nat :=
  sortBy (fun a b => a ≤ b) (dedup ((freeSeatNos vehicle_type used).map rowOf))

/-- One side list `rows[row][side]`: free seats of the given row and side,
sorted by sort_key. -/
def sideSeats (vehicle_type : String) (used : List String) (r : Nat) (left : Bool) : List String :=
  sortBy sortKeyLe ((freeSeatNos vehicle_type used).filter (fun sn => rowOf sn = r && isLeftCol sn = left))

/-- The row/side index of §4.2 step 3, rows ascending, built once from the
initially used set. -/
def buildRowsIdx (vehicle_type : String) (used : List String) : List (Nat × List String × List String) :=
  (rowKeysSorted vehicle_type used).map (fun r =>
    (r, sideSeats vehicle_type used r true, sideSeats vehicle_type used r false))

/-- find_adjacent_block (app.py:478): canonical free same-class block of size
2 or 3 within one row side. -/
def find_adjacent_block (vehicle_type : String) (used : List String) (row_num : Nat)
    (side_list : List String) (needed : Nat) (wanted_type : String) : Option (List String) :=
  let filtered := side_list.filter (fun sn =>
    !(used.contains sn) && seatTypeByNo vehicle_type sn = some wanted_type && (allSeats vehicle_type).contains sn)
  let cols := filtered.map lastChar
  if needed = 3 then
    if cols.contains 'A' && cols.contains 'B' && cols.contains 'C' then
      some [seatName row_num 'A', seatName row_num 'B', seatName row_num 'C']
    else if cols.contains 'D' && cols.contains 'E' && cols.contains 'F' then
      some [seatName row_num 'D', seatName row_num 'E', seatName row_num 'F']
    else none
  else if needed = 2 then
    if cols.contains 'A' && cols.contains 'B' then some [seatName row_num 'A', seatName row_num 'B']
    else if cols.contains 'B' && cols.contains 'C' then some [seatName row_num 'B', seatName row_num 'C']
    else if cols.contains 'D' && cols.contains 'E' then some [seatName row_num 'D', seatName row_num 'E']
    else if cols.contains 'E' && cols.contains 'F' then some [seatName row_num 'E', seatName row_num 'F']
    else none
  else none

/-- Row scan of the group pass (app.py:517-524): rows in ascending order,
left side before right, first block wins. -/
def scanRows (vehicle_type : String) (used : List String)
    (rowsIdx : List (Nat × List String × List String)) (needed : Nat) (wanted_type : String) :
    Option (List String) :=
  match rowsIdx with
  | [] => none
  | (r, leftL, rightL) :: rest =>
    match find_adjacent_block vehicle_type used r leftL needed wanted_type with
    | some b => some b
    | none =>
      match find_adjacent_block vehicle_type used r rightL needed wanted_type with
      | some b => some b
      | none => scanRows vehicle_type used rest needed wanted_type

/-- Bucket one candidate index under its group id, keeping first-encounter
key order and appending members in passenger-list order. -/
def addToGroups (acc : List (Int × List Nat)) (gid : Int) (i : Nat) : List (Int × List Nat) :=
  match acc with
  | [] => [(gid, [i])]
  | (g, l) :: t => if g = gid then (g, l ++ [i]) :: t else (g, l) :: addToGroups t gid i

/-- Group collection of §4.2 step 4 (app.py:502-510): indices of not-yet
seated, non-infant passengers carrying a group id, bucketed by that id. -/
def collectGroups (ps : List Passenger) : List (Int × List Nat) :=
  (ps.enum.filter (fun q => !(hasSeat q.2) && !(is_infant q.2) && q.2.group_id.isSome)).foldl
    (fun acc q =>
      match q.2.group_id with
      | some gid => addToGroups acc gid q.1
      | none => acc) []

/-- Stable insertion keeping descending member counts (Python
sorted(..., key=len, reverse=True) is a stable sort). -/
def insertGroupDesc (g : Int × List Nat) : List (Int × List Nat) → List (Int × List Nat)
  | [] => [g]
  | h :: t => if g.2.length ≤ h.2.length then h :: insertGroupDesc g t else g :: h :: t

/-- Groups in processing order: largest first, ties in first-encounter order. -/
def sortGroupsDesc (l : List (Int × List Nat)) : List (Int × List Nat) :=
  l.foldl (fun acc g => insertGroupDesc g acc) []

/-- Overwrite the seat_no of the passenger at one list index (the in-place
`p["seat_no"] = sn` of the Python loop). -/
def setSeat (ps : List Passenger) (i : Nat) (sn : String) : List Passenger :=
  match ps[i]? with
  | some p => ps.set i { p with seat_no := some sn }
  | none => ps

/-- Target class of a group: first member's `(seat_type or "economy")`. -/
def wantedOf (ps : List Passenger) (idxs : List Nat) : String :=
  match idxs with
  | [] => "economy"
  | i :: _ =>
    match ps[i]? with
    | some p => effType p
    | none => "economy"

/-- zip-assign a found block to the group members, marking seats used
(app.py:526-529). -/
def assignBlock (st : List Passenger × List String) (l : List (Nat × String)) :
    List Passenger × List String :=
  l.foldl (fun st q => (setSeat st.1 q.1 q.2, q.2 :: st.2)) st

/-- Process one group: compute its target class, scan for a block, and on
success seat the members in list order. -/
def processGroup (vehicle_type : String) (rowsIdx : List (Nat × List String × List String))
    (st : List Passenger × List String) (g : Int × List Nat) : List Passenger × List String :=
  match scanRows vehicle_type st.2 rowsIdx g.2.length (wantedOf st.1 g.2) with
  | some block => assignBlock st (g.2.zip block)
  | none => st

/-- Group-first adjacency pass over all groups in processing order. -/
def processGroups (vehicle_type : String) (rowsIdx : List (Nat × List String × List String))
    (gs : List (Int × List Nat)) (st : List Passenger × List String) :
    List Passenger × List String :=
  gs.foldl (processGroup vehicle_type rowsIdx) st

/-- Class-matching free pool of §4.2 step 5, in seat-map order. -/
def freePool (vehicle_type : String) (used : List String) (cls : String) : List String :=
  ((build_seat_map vehicle_type).filter (fun s =>
    s.seat_type = cls && !(used.contains s.seat_no))).map (fun s => s.seat_no)

/-- Individual fallback pass (app.py:535-546) over the passenger indices:
skip seated and infant passengers, pop the head of the class pool. -/
def indivStep (idxs : List Nat) (st : List Passenger × List String)
    (fb fe : List String) : (List Passenger × List String) × List String × List String :=
  match idxs with
  | [] => (st, fb, fe)
  | i :: rest =>
    match st.1[i]? with
    | none => indivStep rest st fb fe
    | some p =>
      if hasSeat p then indivStep rest st fb fe
      else if is_infant p then indivStep rest st fb fe
      else if effType p = "business" then
        match fb with
        | [] => indivStep rest st fb fe
        | sn :: fb2 => indivStep rest (setSeat st.1 i sn, sn :: st.2) fb2 fe
      else
        match fe with
        | [] => indivStep rest st fb fe
        | sn :: fe2 => indivStep rest (setSeat st.1 i sn, sn :: st.2) fb fe2

/-- State after the group-first adjacency pass of assign_seats: the passenger
list and the used set as they stand when the individual pass begins. -/
def engineSt1 (vehicle_type : String) (passengers : List Passenger) :
    List Passenger × List String :=
  processGroups vehicle_type (buildRowsIdx vehicle_type (usedInit passengers))
    (sortGroupsDesc (collectGroups (passengers.map normalizePass)))
    (passengers.map normalizePass, usedInit passengers)

/-- Full final state of the engine (passenger list and used set). -/
def engineFinal (vehicle_type : String) (passengers : List Passenger) :
    List Passenger × List String :=
  (indivStep (List.range (engineSt1 vehicle_type passengers).1.length)
    (engineSt1 vehicle_type passengers)
    (freePool vehicle_type (engineSt1 vehicle_type passengers).2 "business")
    (freePool vehicle_type (engineSt1 vehicle_type passengers).2 "economy")).1

/-- assign_seats (app.py:442): group-aware automatic assignment with the
infant rule; returns the full passenger list. -/
def assign_seats (vehicle_type : String) (passengers : List Passenger) : List Passenger :=
  let ps1 := passengers.map normalizePass
  let used0 := usedInit passengers
  let rowsIdx := buildRowsIdx vehicle_type used0
  let gs := sortGroupsDesc (collectGroups ps1)
  let st1 := processGroups vehicle_type rowsIdx gs (ps1, used0)
  let fb := freePool vehicle_type st1.2 "business"
  let fe := freePool vehicle_type st1.2 "economy"
  (indivStep (List.range st1.1.length) st1 fb fe).1.1

/-- One rendered seat of the grid projector: the seat plus the occupant
attached by build_seat_rows (None when the seat is empty). -/
structure SeatView where
  seat_no : String
  seat_type : String
  occupant : Option Passenger
deriving Repr, DecidableEq

/-- The dict `seat_lookup` (app.py:553): last passenger in list order whose
truthy seat_no equals the key exactly (later dict writers win). -/
def seatLookup (ps : List Passenger) (sn : String) : Option Passenger :=
  (ps.filter (fun p =>
    match p.seat_no with
    | some s => s ≠ "" && s = sn
    | none => false)).getLast?

/-- Attach the occupant to one seat (app.py:554-555). -/
def attachOcc (ps : List Passenger) (s : Seat) : SeatView :=
  { seat_no := s.seat_no, seat_type := s.seat_type, occupant := seatLookup ps s.seat_no }

/-- Python string comparison, lexicographic on characters. -/
def charListLe : List Char → List Char → Bool
  | [], _ => true
  | _ :: _, [] => false
  | a :: as, b :: bs => if a < b then true else if a = b then charListLe as bs else false

/-- Seat order within a row: by the seat_no string (app.py:563). -/
def seatNoLe (a b : SeatView) : Bool :=
  charListLe a.seat_no.data b.seat_no.data

/-- build_seat_rows (app.py:551): the full seat map with occupants attached,
grouped by parsed row number, rows ascending, each row sorted by seat_no. -/
def build_seat_rows (vehicle_type : String) (passengers : List Passenger) :
    List (Nat × List SeatView) :=
  let views := (build_seat_map vehicle_type).map (attachOcc passengers)
  let keys := sortBy (fun a b => a ≤ b) (dedup (views.map (fun sv => rowOf sv.seat_no)))
  keys.map (fun r => (r, sortBy seatNoLe (views.filter (fun sv => rowOf sv.seat_no = r))))

/-- Rejection reasons of the manual seat editor, one per flash message of
update_seat (app.py:770-824); classMismatch carries the passenger class the
message interpolates. -/
inductive Reason where
  | invalidSeat
  | passengerNotFound
  | infantForbidden
  | classMismatch (cls : String)
  | seatOccupied
deriving Repr, DecidableEq

/-- Outcome of a manual seat edit: a rejection, or the committed update
carrying the prior seat value (old_seat, app.py:826). -/
inductive EditOutcome where
  | rejected (r : Reason)
  | updated (oldSeat : Option String)
deriving Repr, DecidableEq

/-- The target-search loop of update_seat (app.py:799-803): first passenger
whose id equals the requested id, with its position. -/
def findTarget : List Passenger → Int → Option (Nat × Passenger)
  | [], _ => none
  | p :: rest, pid =>
    if p.id = pid then some (0, p)
    else (findTarget rest pid).map (fun q => (q.1 + 1, q.2))

/-- The occupancy scan of update_seat (app.py:820-824): some other passenger
(different id) holds a truthy seat whose upper-cased value is the new seat. -/
def occupiedBy (snap : List Passenger) (pid : Int) (new_seat : String) : Bool :=
  snap.any (fun p =>
    (match p.seat_no with
     | some s => s ≠ "" && upperStr s = new_seat
     | none => false) && p.id ≠ pid)

/-- Manual seat edit of the update_seat route (app.py:749-846), restricted to
its validation-and-write core: the raw form seat is normalised, the five
checks run in order, and on success the snapshot's target passenger gets the
new seat (the live-record write happens only on this same success path). -/
def update_seat (vehicle_type : String) (snap : List Passenger) (passenger_id : Int)
    (rawSeat : String) : EditOutcome × List Passenger :=
  let new_seat := normSeat rawSeat
  match seatTypeByNo vehicle_type new_seat with
  | none => (.rejected .invalidSeat, snap)
  | some seatCls =>
    match findTarget snap passenger_id with
    | none => (.rejected .passengerNotFound, snap)
    | some q =>
      if is_infant q.2 then (.rejected .infantForbidden, snap)
      else if seatCls ≠ effType q.2 then (.rejected (.classMismatch (effType q.2)), snap)
      else if occupiedBy snap passenger_id new_seat then (.rejected .seatOccupied, snap)
      else (.updated q.2.seat_no, snap.set q.1 { q.2 with seat_no := some new_seat })

/-! ### Invariant predicates used by the verification -/

/-- Occupancy invariant: every truthy seat of the list is covered by the used
set, and no two distinct positions hold the same truthy seat. -/
def SeatsOk (ps : List Passenger) (used : List String) : Prop :=
  ∀ (i j : Nat) (p q : Passenger) (s : String), i ≠ j → ps[i]? = some p → ps[j]? = some q →
    p.seat_no = some s → s ≠ "" → s ∈ used ∧ q.seat_no ≠ some s

/-- Class of the individual-fallback pool a passenger draws from: the
business pool exactly when the requested type is the string "business",
the economy pool otherwise (app.py:541-542). -/
def poolClass (p : Passenger) : String :=
  if effType p = "business" then "business" else "economy"

/-- A seat class justification for an engine-assigned seat: either the class
of the passenger's own pool, or the target class of the passenger's group
(first member's requested type). -/
def groupClassOk (v : String) (ps1 : List Passenger) (p : Passenger) (t : String) : Prop :=
  seatTypeByNo v t = some (poolClass p) ∨
    ∃ gid idxs, p.group_id = some gid ∧ (gid, idxs) ∈ collectGroups ps1 ∧
      seatTypeByNo v t = some (wantedOf ps1 idxs)

/-- Frame invariant relating the engine state to the normalised input ps1:
lengths agree, all fields except seat_no are untouched, and a seat_no can
only differ from the input by an engine assignment: a fresh (not initially
used), non-empty seat, given to a not-pre-seated non-infant passenger, of a
justified class. -/
def FrameOk (v : String) (ps1 ps : List Passenger) (used0 : List String) : Prop :=
  ps.length = ps1.length ∧
  ∀ (i : Nat) (p : Passenger), ps1[i]? = some p → ∃ q, ps[i]? = some q ∧
    q.id = p.id ∧ q.age = p.age ∧ q.seat_type = p.seat_type ∧ q.group_id = p.group_id ∧
    (q.seat_no = p.seat_no ∨
      (hasSeat p = false ∧ is_infant p = false ∧
        ∃ t, q.seat_no = some t ∧ t ∉ used0 ∧ t ≠ "" ∧ groupClassOk v ps1 p t))

/-- Combined engine invariant threaded through the assignment passes. The
occupancy component is guarded by H (instantiated with "the initially used
seats are duplicate-free"); the frame component holds unconditionally. -/
def EngineInv (H : Prop) (v : String) (ps1 : List Passenger) (used0 : List String)
    (st : List Passenger × List String) : Prop :=
  (H → SeatsOk st.1 st.2) ∧ FrameOk v ps1 st.1 used0 ∧ used0 ⊆ st.2

/-- Row-index well-formedness: every listed seat belongs to the aircraft and
parses back to its row key. -/
def RowsOk (v : String) (rowsIdx : List (Nat × List String × List String)) : Prop :=
  ∀ e ∈ rowsIdx, ∀ sn, (sn ∈ (e : Nat × List String × List String).2.1 ∨ sn ∈ e.2.2) →
    sn ∈ allSeats v ∧ rowOf sn = e.1

/-- Pool well-formedness for the individual pass: jointly duplicate-free,
fresh with respect to the current used set, non-empty, and of the pool's
class. -/
def PoolOk (v : String) (used fb fe : List String) : Prop :=
  (fb ++ fe).Nodup ∧
  (∀ sn ∈ fb, sn ∉ used ∧ sn ≠ "" ∧ seatTypeByNo v sn = some "business") ∧
  (∀ sn ∈ fe, sn ∉ used ∧ sn ≠ "" ∧ seatTypeByNo v sn = some "economy")

/-- The three-passenger A320 scenario of §8 of the spec: one infant and two
adults sharing one economy group. -/
def scenarioPs : List Passenger :=
  [ { id := 1, age := some 2, seat_type := some "economy", seat_no := none, group_id := some 1 },
    { id := 2, age := some 28, seat_type := some "economy", seat_no := none, group_id := some 1 },
    { id := 3, age := some 30, seat_type := some "economy", seat_no := none, group_id := some 1 } ]

/-! ### Basic facts about seat-number strings -/

theorem data_seatName (r : Nat) (c : Char) :
    (seatName r c).data = (toString r).data ++ [c] := by
  simp [seatName, String.data_append, String.singleton, String.push]

theorem seatName_ne_empty (r : Nat) (c : Char) : seatName r c ≠ "" := by
  intro h
  rw [String.ext_iff, data_seatName] at h
  simp at h

theorem lastChar_seatName (r : Nat) (c : Char) : lastChar (seatName r c) = c := by
  rw [lastChar, data_seatName]
  exact List.getLastD_concat _ _ _

theorem digitsVal_append_nondigit (l : List Char) (c : Char) (h : c.isDigit = false) :
    digitsVal (l ++ [c]) = digitsVal l := by
  rw [digitsVal, List.foldl_append]
  simp [digitsVal, h]

theorem digitsVal_repr (r : Nat) (hr : r < 25) : digitsVal (toString r).data = r := by
  revert hr
  revert r
  decide

theorem rowOf_seatName (r : Nat) (c : Char) (hr : r < 25) (hc : c.isDigit = false) :
    rowOf (seatName r c) = r := by
  rw [rowOf, data_seatName, digitsVal_append_nondigit _ _ hc, digitsVal_repr r hr]

theorem cfg_cases (v : String) : cfg v = (20, 3) ∨ cfg v = (22, 4) ∨ cfg v = (24, 5) := by
  rw [cfg]
  split
  · exact Or.inl rfl
  split
  · exact Or.inr (Or.inl rfl)
  split
  · exact Or.inr (Or.inr rfl)
  · exact Or.inl rfl

theorem cfg_rows_le (v : String) : (cfg v).1 ≤ 24 := by
  rcases cfg_cases v with h | h | h <;> rw [h] <;> decide

theorem mem_mkSeatMap (s : Seat) (R B : Nat) :
    s ∈ mkSeatMap R B ↔ ∃ r, r < R ∧ ∃ c, c ∈ "ABCDEF".data ∧
      s = { seat_no := seatName (r + 1) c
            seat_type := if r + 1 ≤ B then "business" else "economy" } := by
  simp only [mkSeatMap, List.mem_flatMap, List.mem_map, List.mem_range]
  constructor
  · rintro ⟨r, hr, c, hc, rfl⟩
    exact ⟨r, hr, c, hc, rfl⟩
  · rintro ⟨r, hr, c, hc, rfl⟩
    exact ⟨r, hr, c, hc, rfl⟩

theorem abcdef_not_digit (c : Char) (hc : c ∈ "ABCDEF".data) : c.isDigit = false := by
  have hd : "ABCDEF".data = ['A', 'B', 'C', 'D', 'E', 'F'] := rfl
  rw [hd] at hc
  fin_cases hc <;> decide

/-- Canonical shape of every seat of every aircraft layout: its seat number
is the row/column rendering, the row is parsed back from the string, the
column is its last character, and its class is determined by the row. -/
theorem seat_shape (v : String) (s : Seat) (hs : s ∈ build_seat_map v) :
    ∃ r c, 1 ≤ r ∧ r ≤ (cfg v).1 ∧ c ∈ "ABCDEF".data ∧
      s = { seat_no := seatName r c
            seat_type := if r ≤ (cfg v).2 then "business" else "economy" } ∧
      rowOf s.seat_no = r ∧ lastChar s.seat_no = c ∧ s.seat_no ≠ "" := by
  rw [build_seat_map, mem_mkSeatMap] at hs
  obtain ⟨r, hr, c, hc, rfl⟩ := hs
  have hr25 : r + 1 < 25 := by
    have := cfg_rows_le v
    omega
  refine ⟨r + 1, c, by omega, by omega, hc, rfl, ?_, lastChar_seatName _ _, seatName_ne_empty _ _⟩
  exact rowOf_seatName _ _ hr25 (abcdef_not_digit c hc)

theorem seatName_inj (r r2 : Nat) (c c2 : Char) (hr : r < 25) (hr2 : r2 < 25)
    (hc : c.isDigit = false) (hc2 : c2.isDigit = false)
    (h : seatName r c = seatName r2 c2) : r = r2 ∧ c = c2 := by
  constructor
  · have := rowOf_seatName r c hr hc
    rw [h, rowOf_seatName r2 c2 hr2 hc2] at this
    omega
  · have := lastChar_seatName r c
    rw [h, lastChar_seatName r2 c2] at this
    exact this.symm

/-- Seat numbers are unique keys of the seat map: two seats sharing one
seat number are the same seat. -/
theorem seat_no_unique (v : String) (s t : Seat) (hs : s ∈ build_seat_map v)
    (ht : t ∈ build_seat_map v) (h : s.seat_no = t.seat_no) : s = t := by
  obtain ⟨r, c, hr1, hr2, hc, hseq, _, _, _⟩ := seat_shape v s hs
  obtain ⟨r2, c2, hr21, hr22, hc2, hteq, _, _, _⟩ := seat_shape v t ht
  have hrow := cfg_rows_le v
  rw [hseq, hteq] at h ⊢
  simp only [Seat.mk.injEq] at h ⊢
  obtain ⟨hre, hce⟩ := seatName_inj r r2 c c2 (by omega) (by omega)
    (abcdef_not_digit c hc) (abcdef_not_digit c2 hc2) h
  subst hre
  subst hce
  exact ⟨rfl, rfl⟩

theorem mem_allSeats (v : String) (sn : String) :
    sn ∈ allSeats v ↔ ∃ s ∈ build_seat_map v, s.seat_no = sn := by
  simp [allSeats, List.mem_map, eq_comm]

theorem seatTypeByNo_eq_some (v : String) (sn w : String) :
    seatTypeByNo v sn = some w ↔ ∃ s ∈ build_seat_map v, s.seat_no = sn ∧ s.seat_type = w := by
  constructor
  · intro h
    rw [seatTypeByNo] at h
    obtain ⟨s, hfind, hw⟩ := Option.map_eq_some'.mp h
    have hmem := List.mem_of_find?_eq_some hfind
    rw [List.mem_reverse] at hmem
    have hpred := List.find?_some hfind
    simp only [decide_eq_true_eq] at hpred
    exact ⟨s, hmem, hpred, hw⟩
  · rintro ⟨s, hmem, hsn, hw⟩
    rw [seatTypeByNo]
    cases hfind : (build_seat_map v).reverse.find? (fun t => t.seat_no = sn) with
    | none =>
      rw [List.find?_eq_none] at hfind
      have := hfind s (List.mem_reverse.mpr hmem)
      simp [hsn] at this
    | some t =>
      have htmem := List.mem_reverse.mp (List.mem_of_find?_eq_some hfind)
      have htpred := List.find?_some hfind
      simp only [decide_eq_true_eq] at htpred
      have hts : t = s := seat_no_unique v t s htmem hmem (htpred.trans hsn.symm)
      simp [hts, hw]

theorem seatTypeByNo_isSome (v : String) (sn : String) :
    (∃ w, seatTypeByNo v sn = some w) ↔ sn ∈ allSeats v := by
  constructor
  · rintro ⟨w, hw⟩
    obtain ⟨s, hmem, hsn, _⟩ := (seatTypeByNo_eq_some v sn w).mp hw
    exact (mem_allSeats v sn).mpr ⟨s, hmem, hsn⟩
  · intro h
    obtain ⟨s, hmem, hsn⟩ := (mem_allSeats v sn).mp h
    exact ⟨s.seat_type, (seatTypeByNo_eq_some v sn s.seat_type).mpr ⟨s, hmem, hsn, rfl⟩⟩

theorem allSeats_shape (v : String) (sn : String) (h : sn ∈ allSeats v) :
    sn = seatName (rowOf sn) (lastChar sn) ∧ rowOf sn < 25 ∧ sn ≠ "" := by
  obtain ⟨s, hmem, hsn⟩ := (mem_allSeats v sn).mp h
  obtain ⟨r, c, _, hr2, hc, hseq, hrow, hcol, hne⟩ := seat_shape v s hmem
  have hrows := cfg_rows_le v
  have hname : s.seat_no = seatName r c := by rw [hseq]
  subst hsn
  rw [hrow, hcol]
  exact ⟨hname, by omega, hne⟩

/-! ### List and character utility lemmas -/

theorem mem_insBy (le : α → α → Bool) (a x : α) (l : List α) :
    x ∈ insBy le a l ↔ x = a ∨ x ∈ l := by
  induction l with
  | nil => simp [insBy]
  | cons b bs ih =>
    rw [insBy]
    split
    · simp [or_comm, or_assoc, or_left_comm]
    · simp only [List.mem_cons, ih]
      tauto

theorem insBy_perm (le : α → α → Bool) (a : α) (l : List α) :
    (insBy le a l).Perm (a :: l) := by
  induction l with
  | nil => rfl
  | cons b bs ih =>
    rw [insBy]
    split
    · rfl
    · exact ((ih.cons b).trans (List.Perm.swap a b bs))

theorem sortBy_perm (le : α → α → Bool) (l : List α) : (sortBy le l).Perm l := by
  induction l with
  | nil => rfl
  | cons a as ih => exact (insBy_perm le a (sortBy le as)).trans (ih.cons a)

theorem mem_sortBy (le : α → α → Bool) (x : α) (l : List α) :
    x ∈ sortBy le l ↔ x ∈ l := (sortBy_perm le l).mem_iff

theorem pairwise_insBy (le : α → α → Bool)
    (htr : ∀ a b c, le a b = true → le b c = true → le a c = true)
    (hto : ∀ a b, le a b = true ∨ le b a = true) (a : α) (l : List α)
    (hl : l.Pairwise (fun x y => le x y = true)) :
    (insBy le a l).Pairwise (fun x y => le x y = true) := by
  induction l with
  | nil => simp [insBy]
  | cons b bs ih =>
    rcases List.pairwise_cons.mp hl with ⟨hb, hbs⟩
    rw [insBy]
    split
    next hab =>
      refine List.pairwise_cons.mpr ⟨?_, hl⟩
      intro x hx
      rcases List.mem_cons.mp hx with rfl | hx
      · exact hab
      · exact htr a b x hab (hb x hx)
    next hab =>
      have hba : le b a = true := by
        rcases hto a b with h | h
        · exact absurd h hab
        · exact h
      refine List.pairwise_cons.mpr ⟨?_, ih hbs⟩
      intro x hx
      rcases (mem_insBy le a x bs).mp hx with rfl | hx
      · exact hba
      · exact hb x hx

theorem pairwise_sortBy (le : α → α → Bool)
    (htr : ∀ a b c, le a b = true → le b c = true → le a c = true)
    (hto : ∀ a b, le a b = true ∨ le b a = true) (l : List α) :
    (sortBy le l).Pairwise (fun x y => le x y = true) := by
  induction l with
  | nil => simp [sortBy]
  | cons a as ih => exact pairwise_insBy le htr hto a (sortBy le as) ih

theorem mem_dedup (x : Nat) (l : List Nat) : x ∈ dedup l ↔ x ∈ l := by
  induction l with
  | nil => simp [dedup]
  | cons a as ih =>
    rw [dedup]
    split
    next hc =>
      simp only [List.mem_cons, ih]
      constructor
      · exact Or.inr
      · rintro (rfl | h)
        · exact ih.mp (by simpa [List.contains, List.elem_iff] using hc)
        · exact h
    next => simp [ih]

theorem nodup_dedup (l : List Nat) : (dedup l).Nodup := by
  induction l with
  | nil => simp [dedup]
  | cons a as ih =>
    rw [dedup]
    split
    · exact ih
    next hc =>
      refine List.nodup_cons.mpr ⟨?_, ih⟩
      intro hmem
      exact hc (by simpa [List.contains, List.elem_iff] using hmem)

theorem nodup_sortBy (le : α → α → Bool) (l : List α) (h : l.Nodup) :
    (sortBy le l).Nodup := (sortBy_perm le l).nodup_iff.mpr h

theorem toNat_ofNat_upper (n : Nat) (h1 : 65 ≤ n) (h2 : n ≤ 90) :
    (Char.ofNat n).toNat = n := by
  interval_cases n <;> decide

theorem upperChar_idem (c : Char) : upperChar (upperChar c) = upperChar c := by
  by_cases h : c.toNat ≥ 97 ∧ c.toNat ≤ 122
  · have hinner : upperChar c = Char.ofNat (c.toNat - 32) := by rw [upperChar, if_pos h]
    have ht : (Char.ofNat (c.toNat - 32)).toNat = c.toNat - 32 :=
      toNat_ofNat_upper _ (by omega) (by omega)
    rw [hinner, upperChar, ht, if_neg (by omega)]
  · have hinner : upperChar c = c := by rw [upperChar, if_neg h]
    rw [hinner, hinner]

theorem upperStr_idem (s : String) : upperStr (upperStr s) = upperStr s := by
  rw [String.ext_iff]
  show (List.map upperChar (upperStr s).data) = _
  show (List.map upperChar (List.map upperChar s.data)) = List.map upperChar s.data
  rw [List.map_map]
  exact List.map_congr_left (fun c _ => upperChar_idem c)

theorem upperStr_normSeat (s : String) : upperStr (normSeat s) = normSeat s := by
  rw [normSeat, upperStr_idem]

/-! ### setSeat and invariant preservation -/

theorem length_setSeat (ps : List Passenger) (i : Nat) (sn : String) :
    (setSeat ps i sn).length = ps.length := by
  rw [setSeat]
  cases h : ps[i]? <;> simp

theorem getElem_setSeat_ne (ps : List Passenger) (i : Nat) (sn : String) (j : Nat)
    (h : i ≠ j) : (setSeat ps i sn)[j]? = ps[j]? := by
  rw [setSeat]
  cases hi : ps[i]?
  · rfl
  · rw [List.getElem?_set, if_neg h]

theorem getElem_setSeat_self (ps : List Passenger) (i : Nat) (sn : String) (p : Passenger)
    (h : ps[i]? = some p) :
    (setSeat ps i sn)[i]? = some { p with seat_no := some sn } := by
  rw [setSeat, h, List.getElem?_set]
  obtain ⟨hi, _⟩ := List.getElem?_eq_some_iff.mp h
  simp [hi]

theorem seatsOk_setSeat (ps : List Passenger) (used : List String) (i : Nat) (sn : String)
    (hsn : sn ∉ used) (hne : sn ≠ "") (h : SeatsOk ps used) :
    SeatsOk (setSeat ps i sn) (sn :: used) := by
  intro a b p q s hab hpa hqb hps hsne
  by_cases hai : a = i
  · subst hai
    cases horig : ps[a]? with
    | none => rw [setSeat, horig] at hpa; rw [horig] at hpa; exact absurd hpa (by simp)
    | some p0 =>
      rw [getElem_setSeat_self ps a sn p0 horig] at hpa
      have hp : p = { p0 with seat_no := some sn } := by injection hpa with h2; exact h2.symm
      have hs : s = sn := by
        rw [hp] at hps
        injection hps with h2
        exact h2.symm
      subst hs
      refine ⟨List.mem_cons_self _ _, ?_⟩
      rw [getElem_setSeat_ne ps a s b (fun he => hab he)] at hqb
      intro hq
      exact hsn (h b a q p0 s (fun he => hab he.symm) hqb horig hq hsne).1
  · rw [getElem_setSeat_ne ps i sn a (fun he => hai he.symm)] at hpa
    by_cases hbi : b = i
    · subst hbi
      cases horig : ps[b]? with
      | none => rw [setSeat, horig] at hqb; rw [horig] at hqb; exact absurd hqb (by simp)
      | some q0 =>
        have hmain := h a b p q0 s hab hpa horig hps hsne
        rw [getElem_setSeat_self ps b sn q0 horig] at hqb
        have hq : q = { q0 with seat_no := some sn } := by injection hqb with h2; exact h2.symm
        refine ⟨List.mem_cons_of_mem _ hmain.1, ?_⟩
        rw [hq]
        intro hcontra
        have hssn : sn = s := by simpa using hcontra
        rw [hssn] at hsn
        exact hsn hmain.1
    · rw [getElem_setSeat_ne ps i sn b (fun he => hbi he.symm)] at hqb
      have hmain := h a b p q s hab hpa hqb hps hsne
      exact ⟨List.mem_cons_of_mem _ hmain.1, hmain.2⟩

theorem frameOk_setSeat (v : String) (ps1 ps : List Passenger) (used0 : List String)
    (i : Nat) (sn : String) (p0 : Passenger)
    (hp0 : ps1[i]? = some p0) (hseat : hasSeat p0 = false) (hinf : is_infant p0 = false)
    (hcls : groupClassOk v ps1 p0 sn) (hnu : sn ∉ used0) (hne : sn ≠ "")
    (h : FrameOk v ps1 ps used0) : FrameOk v ps1 (setSeat ps i sn) used0 := by
  obtain ⟨hlen, hall⟩ := h
  refine ⟨by rw [length_setSeat, hlen], ?_⟩
  intro j pj hj
  obtain ⟨q, hq, hid, hage, hst, hgid, hdisj⟩ := hall j pj hj
  by_cases hji : j = i
  · subst hji
    have hpj : pj = p0 := by
      rw [hj] at hp0
      exact Option.some_inj.mp hp0
    refine ⟨{ q with seat_no := some sn }, getElem_setSeat_self ps j sn q hq, hid, hage, hst, hgid, ?_⟩
    rw [hpj]
    exact Or.inr ⟨hseat, hinf, sn, rfl, hnu, hne, hcls⟩
  · refine ⟨q, ?_, hid, hage, hst, hgid, hdisj⟩
    rw [getElem_setSeat_ne ps i sn j (fun he => hji he.symm)]
    exact hq

theorem engineInv_assignBlock (H : Prop) (v : String) (ps1 : List Passenger)
    (used0 : List String)
    (st : List Passenger × List String) (l : List (Nat × String))
    (hinv : EngineInv H v ps1 used0 st)
    (hl : ∀ pr ∈ l, (pr : Nat × String).2 ∉ st.2 ∧ pr.2 ≠ "" ∧
          ∃ p0, ps1[pr.1]? = some p0 ∧ hasSeat p0 = false ∧ is_infant p0 = false ∧
            groupClassOk v ps1 p0 pr.2)
    (hnd : (l.map Prod.snd).Nodup) :
    EngineInv H v ps1 used0 (assignBlock st l) := by
  induction l generalizing st with
  | nil => simpa [assignBlock] using hinv
  | cons hd tl ih =>
    obtain ⟨hso, hfo, hsub⟩ := hinv
    obtain ⟨hdnu, hdne, p0, hp0, hp0seat, hp0inf, hp0cls⟩ := hl hd (List.mem_cons_self _ _)
    have hstep : assignBlock st (hd :: tl) =
        assignBlock (setSeat st.1 hd.1 hd.2, hd.2 :: st.2) tl := rfl
    rw [hstep]
    rw [List.map_cons, List.nodup_cons] at hnd
    apply ih
    · refine ⟨fun hH => seatsOk_setSeat st.1 st.2 hd.1 hd.2 hdnu hdne (hso hH), ?_, ?_⟩
      · exact frameOk_setSeat v ps1 st.1 used0 hd.1 hd.2 p0 hp0 hp0seat hp0inf hp0cls
          (fun hmem => hdnu (hsub hmem)) hdne hfo
      · exact fun x hx => List.mem_cons_of_mem _ (hsub hx)
    · intro pr hpr
      obtain ⟨hnu2, hne2, q0, hq0, hq0seat, hq0inf, hq0cls⟩ := hl pr (List.mem_cons_of_mem _ hpr)
      refine ⟨?_, hne2, q0, hq0, hq0seat, hq0inf, hq0cls⟩
      intro hmem
      rcases List.mem_cons.mp hmem with heq | hmem2
      · exact hnd.1 (heq ▸ List.mem_map_of_mem Prod.snd hpr)
      · exact hnu2 hmem2
    · exact hnd.2

/-! ### Facts about the row index and adjacent-block search -/

theorem seatName_ne_col (r : Nat) (c d : Char) (h : c ≠ d) : seatName r c ≠ seatName r d := by
  intro he
  apply h
  have hc := lastChar_seatName r c
  rw [he, lastChar_seatName] at hc
  exact hc.symm

theorem nodup_two (a b : α) (h : a ≠ b) : ([a, b] : List α).Nodup := by
  refine List.nodup_cons.mpr ⟨?_, List.nodup_singleton b⟩
  intro hmem
  exact h (List.mem_singleton.mp hmem)

theorem nodup_three (a b c : α) (h1 : a ≠ b) (h2 : a ≠ c) (h3 : b ≠ c) :
    ([a, b, c] : List α).Nodup := by
  refine List.nodup_cons.mpr ⟨?_, nodup_two b c h3⟩
  intro hmem
  rcases List.mem_cons.mp hmem with he | hmem
  · exact h1 he
  · exact h2 (List.mem_singleton.mp hmem)

theorem mem_freeSeatNos (v : String) (used : List String) (sn : String)
    (h : sn ∈ freeSeatNos v used) : sn ∈ allSeats v ∧ sn ∉ used := by
  rw [freeSeatNos] at h
  obtain ⟨s, hs, rfl⟩ := List.mem_map.mp h
  rw [List.mem_filter] at hs
  refine ⟨(mem_allSeats v s.seat_no).mpr ⟨s, hs.1, rfl⟩, ?_⟩
  intro hmem
  have hfalse := hs.2
  rw [Bool.not_eq_true', List.contains] at hfalse
  rw [List.elem_iff.mpr hmem] at hfalse
  exact absurd hfalse (by simp)

theorem rowsOk_buildRowsIdx (v : String) (used : List String) :
    RowsOk v (buildRowsIdx v used) := by
  intro e he sn hsn
  rw [buildRowsIdx] at he
  obtain ⟨r, _, rfl⟩ := List.mem_map.mp he
  have hmem : sn ∈ (freeSeatNos v used).filter (fun t => rowOf t = r && isLeftCol t = true) ∨
      sn ∈ (freeSeatNos v used).filter (fun t => rowOf t = r && isLeftCol t = false) := by
    rcases hsn with h | h
    · exact Or.inl ((mem_sortBy _ sn _).mp h)
    · exact Or.inr ((mem_sortBy _ sn _).mp h)
  rcases hmem with h | h <;>
  · rw [List.mem_filter] at h
    obtain ⟨hfree, hpred⟩ := h
    simp only [Bool.and_eq_true, decide_eq_true_eq] at hpred
    exact ⟨(mem_freeSeatNos v used sn hfree).1, hpred.1⟩

theorem block_col_witness (v : String) (used : List String) (r : Nat) (side_list : List String)
    (wanted : String)
    (hside : ∀ sn ∈ side_list, sn ∈ allSeats v ∧ rowOf sn = r) (c : Char)
    (hc : ((side_list.filter (fun sn =>
        !(used.contains sn) && seatTypeByNo v sn = some wanted &&
          (allSeats v).contains sn)).map lastChar).contains c = true) :
    seatName r c ∉ used ∧ seatName r c ≠ "" ∧ seatTypeByNo v (seatName r c) = some wanted ∧
      seatName r c ∈ allSeats v := by
  rw [List.contains, List.elem_iff] at hc
  obtain ⟨sn, hsn, hlast⟩ := List.mem_map.mp hc
  rw [List.mem_filter] at hsn
  obtain ⟨hmem, hpred⟩ := hsn
  simp only [Bool.and_eq_true, Bool.not_eq_true', decide_eq_true_eq] at hpred
  obtain ⟨⟨hnu, hty⟩, _⟩ := hpred
  obtain ⟨hall, hrow⟩ := hside sn hmem
  obtain ⟨hshape, _, hne⟩ := allSeats_shape v sn hall
  have hform : sn = seatName r c := by
    rw [hshape, hrow, hlast]
  rw [← hform]
  refine ⟨?_, hne, hty, hall⟩
  intro hmem2
  rw [List.contains] at hnu
  have helem : used.elem sn = true := List.elem_iff.mpr hmem2
  rw [hnu] at helem
  exact absurd helem (by simp)

theorem fab_facts (v : String) (used : List String) (r : Nat) (side_list : List String)
    (needed : Nat) (wanted : String) (block : List String)
    (hside : ∀ sn ∈ side_list, sn ∈ allSeats v ∧ rowOf sn = r)
    (h : find_adjacent_block v used r side_list needed wanted = some block) :
    block.length = needed ∧ block.Nodup ∧
      ∀ sn ∈ block, sn ∉ used ∧ sn ≠ "" ∧ seatTypeByNo v sn = some wanted := by
  rw [find_adjacent_block] at h
  by_cases h3 : needed = 3
  · rw [if_pos h3] at h
    subst h3
    split at h
    next hguard =>
      simp only [Bool.and_eq_true] at hguard
      obtain ⟨⟨hA, hB⟩, hC⟩ := hguard
      obtain ⟨hAu, hAe, hAt, _⟩ := block_col_witness v used r side_list wanted hside 'A' hA
      obtain ⟨hBu, hBe, hBt, _⟩ := block_col_witness v used r side_list wanted hside 'B' hB
      obtain ⟨hCu, hCe, hCt, _⟩ := block_col_witness v used r side_list wanted hside 'C' hC
      rw [Option.some_inj] at h
      subst h
      refine ⟨rfl, ?_, ?_⟩
      · exact nodup_three _ _ _ (seatName_ne_col r 'A' 'B' (by decide))
          (seatName_ne_col r 'A' 'C' (by decide)) (seatName_ne_col r 'B' 'C' (by decide))
      · intro sn hsn
        rcases List.mem_cons.mp hsn with rfl | hsn
        · exact ⟨hAu, hAe, hAt⟩
        rcases List.mem_cons.mp hsn with rfl | hsn
        · exact ⟨hBu, hBe, hBt⟩
        rcases List.mem_cons.mp hsn with rfl | hsn
        · exact ⟨hCu, hCe, hCt⟩
        · exact absurd hsn (List.not_mem_nil sn)
    split at h
    next hguard =>
      simp only [Bool.and_eq_true] at hguard
      obtain ⟨⟨hD, hE⟩, hF⟩ := hguard
      obtain ⟨hDu, hDe, hDt, _⟩ := block_col_witness v used r side_list wanted hside 'D' hD
      obtain ⟨hEu, hEe, hEt, _⟩ := block_col_witness v used r side_list wanted hside 'E' hE
      obtain ⟨hFu, hFe, hFt, _⟩ := block_col_witness v used r side_list wanted hside 'F' hF
      rw [Option.some_inj] at h
      subst h
      refine ⟨rfl, ?_, ?_⟩
      · exact nodup_three _ _ _ (seatName_ne_col r 'D' 'E' (by decide))
          (seatName_ne_col r 'D' 'F' (by decide)) (seatName_ne_col r 'E' 'F' (by decide))
      · intro sn hsn
        rcases List.mem_cons.mp hsn with rfl | hsn
        · exact ⟨hDu, hDe, hDt⟩
        rcases List.mem_cons.mp hsn with rfl | hsn
        · exact ⟨hEu, hEe, hEt⟩
        rcases List.mem_cons.mp hsn with rfl | hsn
        · exact ⟨hFu, hFe, hFt⟩
        · exact absurd hsn (List.not_mem_nil sn)
    · exact absurd h (by simp)
  · rw [if_neg h3] at h
    by_cases h2 : needed = 2
    · rw [if_pos h2] at h
      subst h2
      have hpair : ∀ (c d : Char), c ≠ d →
          ((side_list.filter (fun sn => !(used.contains sn) &&
            seatTypeByNo v sn = some wanted && (allSeats v).contains sn)).map lastChar).contains c
              = true →
          ((side_list.filter (fun sn => !(used.contains sn) &&
            seatTypeByNo v sn = some wanted && (allSeats v).contains sn)).map lastChar).contains d
              = true →
          block = [seatName r c, seatName r d] →
          block.length = 2 ∧ block.Nodup ∧
            ∀ sn ∈ block, sn ∉ used ∧ sn ≠ "" ∧ seatTypeByNo v sn = some wanted := by
        intro c d hcd hc hd hb
        obtain ⟨hcu, hce, hct, _⟩ := block_col_witness v used r side_list wanted hside c hc
        obtain ⟨hdu, hde, hdt, _⟩ := block_col_witness v used r side_list wanted hside d hd
        subst hb
        refine ⟨rfl, ?_, ?_⟩
        · exact nodup_two _ _ (seatName_ne_col r c d hcd)
        · intro sn hsn
          rcases List.mem_cons.mp hsn with rfl | hsn
          · exact ⟨hcu, hce, hct⟩
          rcases List.mem_cons.mp hsn with rfl | hsn
          · exact ⟨hdu, hde, hdt⟩
          · exact absurd hsn (List.not_mem_nil sn)
      split at h
      next hg =>
        simp only [Bool.and_eq_true] at hg
        exact hpair 'A' 'B' (by decide) hg.1 hg.2 (Option.some_inj.mp h).symm
      split at h
      next hg =>
        simp only [Bool.and_eq_true] at hg
        exact hpair 'B' 'C' (by decide) hg.1 hg.2 (Option.some_inj.mp h).symm
      split at h
      next hg =>
        simp only [Bool.and_eq_true] at hg
        exact hpair 'D' 'E' (by decide) hg.1 hg.2 (Option.some_inj.mp h).symm
      split at h
      next hg =>
        simp only [Bool.and_eq_true] at hg
        exact hpair 'E' 'F' (by decide) hg.1 hg.2 (Option.some_inj.mp h).symm
      · exact absurd h (by simp)
    · rw [if_neg h2] at h
      exact absurd h (by simp)

theorem scanRows_some_facts (v : String) (used : List String)
    (rowsIdx : List (Nat × List String × List String)) (needed : Nat) (wanted : String)
    (block : List String) (hrows : RowsOk v rowsIdx)
    (h : scanRows v used rowsIdx needed wanted = some block) :
    block.length = needed ∧ block.Nodup ∧
      ∀ sn ∈ block, sn ∉ used ∧ sn ≠ "" ∧ seatTypeByNo v sn = some wanted := by
  induction rowsIdx with
  | nil => exact absurd h (by simp [scanRows])
  | cons e rest ih =>
    obtain ⟨r, leftL, rightL⟩ := e
    have hL : ∀ sn ∈ leftL, sn ∈ allSeats v ∧ rowOf sn = r := by
      intro sn hsn
      exact hrows (r, leftL, rightL) (List.mem_cons_self _ _) sn (Or.inl hsn)
    have hR : ∀ sn ∈ rightL, sn ∈ allSeats v ∧ rowOf sn = r := by
      intro sn hsn
      exact hrows (r, leftL, rightL) (List.mem_cons_self _ _) sn (Or.inr hsn)
    rw [scanRows] at h
    cases hfl : find_adjacent_block v used r leftL needed wanted with
    | some b =>
      rw [hfl] at h
      rw [Option.some_inj] at h
      subst h
      exact fab_facts v used r leftL needed wanted b hL hfl
    | none =>
      rw [hfl] at h
      cases hfr : find_adjacent_block v used r rightL needed wanted with
      | some b =>
        rw [hfr] at h
        rw [Option.some_inj] at h
        subst h
        exact fab_facts v used r rightL needed wanted b hR hfr
      | none =>
        rw [hfr] at h
        exact ih (fun e2 he2 => hrows e2 (List.mem_cons_of_mem _ he2)) h

theorem scanRows_isSome (v : String) (used : List String)
    (rowsIdx : List (Nat × List String × List String)) (needed : Nat) (wanted : String)
    (h : ∃ e ∈ rowsIdx, find_adjacent_block v used
          (e : Nat × List String × List String).1 e.2.1 needed wanted ≠ none ∨
        find_adjacent_block v used e.1 e.2.2 needed wanted ≠ none) :
    scanRows v used rowsIdx needed wanted ≠ none := by
  induction rowsIdx with
  | nil => simp at h
  | cons e rest ih =>
    obtain ⟨r, leftL, rightL⟩ := e
    rw [scanRows]
    cases hfl : find_adjacent_block v used r leftL needed wanted with
    | some b => simp
    | none =>
      cases hfr : find_adjacent_block v used r rightL needed wanted with
      | some b => simp
      | none =>
        apply ih
        obtain ⟨e2, he2, hor⟩ := h
        rcases List.mem_cons.mp he2 with rfl | he2
        · rcases hor with hc | hc
          · exact absurd hfl hc
          · exact absurd hfr hc
        · exact ⟨e2, he2, hor⟩

/-! ### Group collection and the group pass -/

theorem effType_congr (p q : Passenger) (h : q.seat_type = p.seat_type) :
    effType q = effType p := by
  rw [effType, effType, h]

theorem addToGroups_good (P : Int → Nat → Prop) (acc : List (Int × List Nat)) (gid : Int)
    (i : Nat) (hacc : ∀ g idxs, (g, idxs) ∈ acc → ∀ j ∈ idxs, P g j) (hi : P gid i) :
    ∀ g idxs, (g, idxs) ∈ addToGroups acc gid i → ∀ j ∈ idxs, P g j := by
  induction acc with
  | nil =>
    intro g idxs hmem j hj
    rw [addToGroups] at hmem
    rcases List.mem_singleton.mp hmem with heq
    obtain ⟨h1, h2⟩ := Prod.mk.injEq .. ▸ heq
    injection heq with hg hidxs
    subst hg
    subst hidxs
    rw [List.mem_singleton.mp hj]
    exact hi
  | cons hd t ih =>
    obtain ⟨g0, l0⟩ := hd
    intro g idxs hmem j hj
    rw [addToGroups] at hmem
    split at hmem
    next hg0 =>
      subst hg0
      rcases List.mem_cons.mp hmem with heq | hmem2
      · injection heq with hg hidxs
        subst hg
        subst hidxs
        rcases List.mem_append.mp hj with hj2 | hj2
        · exact hacc g l0 (List.mem_cons_self _ _) j hj2
        · rw [List.mem_singleton.mp hj2]
          exact hi
      · exact hacc g idxs (List.mem_cons_of_mem _ hmem2) j hj
    next =>
      rcases List.mem_cons.mp hmem with heq | hmem2
      · injection heq with hg hidxs
        subst hg
        subst hidxs
        exact hacc g idxs (List.mem_cons_self _ _) j hj
      · exact ih (fun g2 idxs2 hmem3 => hacc g2 idxs2 (List.mem_cons_of_mem _ hmem3)) g idxs hmem2 j hj

/-- Every index collected under a group id denotes an unseated, non-infant
passenger of the normalised list carrying exactly that group id. -/
def GoodIdx (ps : List Passenger) (gid : Int) (i : Nat) : Prop :=
  ∃ p, ps[i]? = some p ∧ hasSeat p = false ∧ is_infant p = false ∧ p.group_id = some gid

theorem foldl_addToGroups_good (ps : List Passenger) (l : List (Nat × Passenger))
    (hl : ∀ q ∈ l, ps[(q : Nat × Passenger).1]? = some q.2 ∧ hasSeat q.2 = false ∧
      is_infant q.2 = false)
    (acc : List (Int × List Nat))
    (hacc : ∀ g idxs, (g, idxs) ∈ acc → ∀ j ∈ idxs, GoodIdx ps g j) :
    ∀ g idxs, (g, idxs) ∈ l.foldl
      (fun acc q =>
        match q.2.group_id with
        | some gid => addToGroups acc gid q.1
        | none => acc) acc → ∀ j ∈ idxs, GoodIdx ps g j := by
  induction l generalizing acc with
  | nil => exact hacc
  | cons q t ih =>
    intro g idxs hmem j hj
    rw [List.foldl_cons] at hmem
    obtain ⟨hq, hqs, hqi⟩ := hl q (List.mem_cons_self _ _)
    cases hgid : q.2.group_id with
    | none =>
      rw [hgid] at hmem
      exact ih (fun q2 hq2 => hl q2 (List.mem_cons_of_mem _ hq2)) acc hacc g idxs hmem j hj
    | some gid =>
      rw [hgid] at hmem
      exact ih (fun q2 hq2 => hl q2 (List.mem_cons_of_mem _ hq2)) (addToGroups acc gid q.1)
        (addToGroups_good (GoodIdx ps) acc gid q.1 hacc ⟨q.2, hq, hqs, hqi, hgid⟩) g idxs hmem j hj

theorem collectGroups_good (ps : List Passenger) (g : Int) (idxs : List Nat)
    (h : (g, idxs) ∈ collectGroups ps) : ∀ j ∈ idxs, GoodIdx ps g j := by
  rw [collectGroups] at h
  refine foldl_addToGroups_good ps _ ?_ [] (by simp) g idxs h
  intro q hq
  rw [List.mem_filter] at hq
  obtain ⟨henum, hpred⟩ := hq
  simp only [Bool.and_eq_true, Bool.not_eq_true'] at hpred
  obtain ⟨hlt, hx⟩ := List.mem_enum henum
  exact ⟨List.getElem?_eq_some_iff.mpr ⟨hlt, hx.symm⟩, hpred.1.1, hpred.1.2⟩

theorem mem_insertGroupDesc (g x : Int × List Nat) (l : List (Int × List Nat)) :
    x ∈ insertGroupDesc g l ↔ x = g ∨ x ∈ l := by
  induction l with
  | nil => simp [insertGroupDesc]
  | cons h t ih =>
    rw [insertGroupDesc]
    split
    · simp only [List.mem_cons, ih]
      tauto
    · simp

theorem mem_sortGroupsDesc_aux (l : List (Int × List Nat)) (acc : List (Int × List Nat))
    (x : Int × List Nat) (h : x ∈ l.foldl (fun acc g => insertGroupDesc g acc) acc) :
    x ∈ acc ∨ x ∈ l := by
  induction l generalizing acc with
  | nil => exact Or.inl h
  | cons g t ih =>
    rw [List.foldl_cons] at h
    rcases ih (insertGroupDesc g acc) h with h2 | h2
    · rcases (mem_insertGroupDesc g x acc).mp h2 with rfl | h3
      · exact Or.inr (List.mem_cons_self _ _)
      · exact Or.inl h3
    · exact Or.inr (List.mem_cons_of_mem _ h2)

theorem mem_sortGroupsDesc (l : List (Int × List Nat)) (x : Int × List Nat)
    (h : x ∈ sortGroupsDesc l) : x ∈ l := by
  rcases mem_sortGroupsDesc_aux l [] x h with h2 | h2
  · exact absurd h2 (List.not_mem_nil x)
  · exact h2

theorem wantedOf_congr (v : String) (ps1 ps : List Passenger) (used0 : List String)
    (idxs : List Nat) (gid : Int) (hfo : FrameOk v ps1 ps used0)
    (hg : ∀ i ∈ idxs, GoodIdx ps1 gid i) :
    wantedOf ps idxs = wantedOf ps1 idxs := by
  cases idxs with
  | nil => rfl
  | cons i t =>
    obtain ⟨p0, hp0, _, _, _⟩ := hg i (List.mem_cons_self _ _)
    obtain ⟨q, hq, _, _, hst, _, _⟩ := hfo.2 i p0 hp0
    rw [wantedOf, wantedOf, hp0, hq]
    exact effType_congr p0 q hst

theorem engineInv_processGroup (H : Prop) (v : String) (ps1 : List Passenger)
    (used0 : List String)
    (rowsIdx : List (Nat × List String × List String)) (st : List Passenger × List String)
    (g : Int × List Nat) (hrows : RowsOk v rowsIdx)
    (hgood : ∀ i ∈ g.2, GoodIdx ps1 g.1 i)
    (hgc : (g.1, g.2) ∈ collectGroups ps1)
    (hinv : EngineInv H v ps1 used0 st) :
    EngineInv H v ps1 used0 (processGroup v rowsIdx st g) := by
  rw [processGroup]
  cases hscan : scanRows v st.2 rowsIdx g.2.length (wantedOf st.1 g.2) with
  | none => exact hinv
  | some block =>
    obtain ⟨hlen, hnd, hfacts⟩ :=
      scanRows_some_facts v st.2 rowsIdx g.2.length (wantedOf st.1 g.2) block hrows hscan
    have hw : wantedOf st.1 g.2 = wantedOf ps1 g.2 :=
      wantedOf_congr v ps1 st.1 used0 g.2 g.1 hinv.2.1 hgood
    apply engineInv_assignBlock H v ps1 used0 st (g.2.zip block) hinv
    · intro pr hpr
      have hmem := List.mem_zip hpr
      obtain ⟨hfst, hsnd⟩ := hmem
      obtain ⟨hnu, hne, hty⟩ := hfacts pr.2 hsnd
      obtain ⟨p0, hp0, hp0s, hp0i, hp0g⟩ := hgood pr.1 hfst
      refine ⟨hnu, hne, p0, hp0, hp0s, hp0i, Or.inr ⟨g.1, g.2, hp0g, ?_, ?_⟩⟩
      · exact hgc
      · rw [← hw]
        exact hty
    · have hmap : (g.2.zip block).map Prod.snd = block :=
        List.map_snd_zip g.2 block (by omega)
      rw [hmap]
      exact hnd

theorem engineInv_processGroups (H : Prop) (v : String) (ps1 : List Passenger)
    (used0 : List String)
    (rowsIdx : List (Nat × List String × List String)) (gs : List (Int × List Nat))
    (st : List Passenger × List String) (hrows : RowsOk v rowsIdx)
    (hgs : ∀ g ∈ gs, (∀ i ∈ (g : Int × List Nat).2, GoodIdx ps1 g.1 i) ∧
      (g.1, g.2) ∈ collectGroups ps1)
    (hinv : EngineInv H v ps1 used0 st) :
    EngineInv H v ps1 used0 (processGroups v rowsIdx gs st) := by
  induction gs generalizing st with
  | nil => exact hinv
  | cons g t ih =>
    rw [processGroups, List.foldl_cons]
    obtain ⟨hgood, hgc⟩ := hgs g (List.mem_cons_self _ _)
    exact ih (processGroup v rowsIdx st g) (fun g2 hg2 => hgs g2 (List.mem_cons_of_mem _ hg2))
      (engineInv_processGroup H v ps1 used0 rowsIdx st g hrows hgood hgc hinv)

/-! ### Individual pass, pools and the initial state -/

theorem hasSeat_congr (p q : Passenger) (h : q.seat_no = p.seat_no) :
    hasSeat q = hasSeat p := by
  rw [hasSeat, hasSeat, h]

theorem is_infant_congr (p q : Passenger) (h : q.age = p.age) :
    is_infant q = is_infant p := by
  rw [is_infant, is_infant, h]

theorem nodup_allSeats (v : String) : (allSeats v).Nodup := by
  rcases cfg_cases v with hcfg | hcfg | hcfg <;>
  · have he : allSeats v = (mkSeatMap (cfg v).1 (cfg v).2).map (fun s => s.seat_no) := rfl
    rw [he, hcfg]
    decide

theorem freePool_facts (v : String) (used : List String) (cls : String) (sn : String)
    (h : sn ∈ freePool v used cls) :
    sn ∉ used ∧ sn ≠ "" ∧ seatTypeByNo v sn = some cls := by
  rw [freePool] at h
  obtain ⟨s, hs, rfl⟩ := List.mem_map.mp h
  rw [List.mem_filter] at hs
  obtain ⟨hmem, hpred⟩ := hs
  simp only [Bool.and_eq_true, Bool.not_eq_true', decide_eq_true_eq] at hpred
  obtain ⟨hcls, hfree⟩ := hpred
  obtain ⟨_, _, _, _, _, _, _, _, hne⟩ := seat_shape v s hmem
  refine ⟨?_, hne, (seatTypeByNo_eq_some v s.seat_no cls).mpr ⟨s, hmem, rfl, hcls⟩⟩
  intro hm
  rw [List.contains, List.elem_iff.mpr hm] at hfree
  exact absurd hfree (by simp)

theorem nodup_freePool (v : String) (used : List String) (cls : String) :
    (freePool v used cls).Nodup := by
  rw [freePool]
  exact List.Sublist.nodup (List.Sublist.map _ (List.filter_sublist _)) (nodup_allSeats v)

theorem poolOk_init (v : String) (used : List String) :
    PoolOk v used (freePool v used "business") (freePool v used "economy") := by
  refine ⟨?_, ?_, ?_⟩
  · refine List.Nodup.append (nodup_freePool v used "business") (nodup_freePool v used "economy") ?_
    intro sn hb he
    have h1 := (freePool_facts v used "business" sn hb).2.2
    have h2 := (freePool_facts v used "economy" sn he).2.2
    rw [h1] at h2
    exact absurd (Option.some_inj.mp h2) (by decide)
  · exact fun sn h => freePool_facts v used "business" sn h
  · exact fun sn h => freePool_facts v used "economy" sn h

theorem poolOk_shift (v : String) (used fb fe : List String) (sn : String)
    (hpool : PoolOk v used (sn :: fb) fe) : PoolOk v (sn :: used) fb fe := by
  obtain ⟨hnd, hfb, hfe⟩ := hpool
  rw [List.cons_append, List.nodup_cons] at hnd
  refine ⟨hnd.2, ?_, ?_⟩
  · intro x hx
    obtain ⟨h1, h2, h3⟩ := hfb x (List.mem_cons_of_mem _ hx)
    refine ⟨?_, h2, h3⟩
    intro hm
    rcases List.mem_cons.mp hm with rfl | hm
    · exact hnd.1 (List.mem_append.mpr (Or.inl hx))
    · exact h1 hm
  · intro x hx
    obtain ⟨h1, h2, h3⟩ := hfe x hx
    refine ⟨?_, h2, h3⟩
    intro hm
    rcases List.mem_cons.mp hm with rfl | hm
    · exact hnd.1 (List.mem_append.mpr (Or.inr hx))
    · exact h1 hm

theorem poolOk_shift_eco (v : String) (used fb fe : List String) (sn : String)
    (hpool : PoolOk v used fb (sn :: fe)) : PoolOk v (sn :: used) fb fe := by
  obtain ⟨hnd, hfb, hfe⟩ := hpool
  have hsn : sn ∈ fb ++ sn :: fe := List.mem_append.mpr (Or.inr (List.mem_cons_self _ _))
  refine ⟨?_, ?_, ?_⟩
  · have hsb : (fb ++ fe).Sublist (fb ++ sn :: fe) :=
      List.Sublist.append (List.Sublist.refl fb) (List.sublist_cons_self sn fe)
    exact List.Sublist.nodup hsb hnd
  · intro x hx
    obtain ⟨h1, h2, h3⟩ := hfb x hx
    refine ⟨?_, h2, h3⟩
    intro hm
    rcases List.mem_cons.mp hm with rfl | hm
    · have := List.disjoint_of_nodup_append hnd
      exact this hx (List.mem_cons_self _ _)
    · exact h1 hm
  · intro x hx
    obtain ⟨h1, h2, h3⟩ := hfe x (List.mem_cons_of_mem _ hx)
    refine ⟨?_, h2, h3⟩
    intro hm
    rcases List.mem_cons.mp hm with rfl | hm
    · have hnd2 := (List.nodup_append.mp hnd).2.1
      rw [List.nodup_cons] at hnd2
      exact hnd2.1 hx
    · exact h1 hm

theorem frameOk_lookup (v : String) (ps1 ps : List Passenger) (used0 : List String)
    (hfo : FrameOk v ps1 ps used0) (i : Nat) (q : Passenger) (hq : ps[i]? = some q) :
    ∃ p0, ps1[i]? = some p0 ∧ q.id = p0.id ∧ q.age = p0.age ∧ q.seat_type = p0.seat_type ∧
      q.group_id = p0.group_id ∧
      (q.seat_no = p0.seat_no ∨
        (hasSeat p0 = false ∧ is_infant p0 = false ∧
          ∃ t, q.seat_no = some t ∧ t ∉ used0 ∧ t ≠ "" ∧ groupClassOk v ps1 p0 t)) := by
  obtain ⟨hlen, hall⟩ := hfo
  have hi : i < ps.length := (List.getElem?_eq_some_iff.mp hq).1
  rw [hlen] at hi
  have hp0 : ps1[i]? = some ps1[i] := List.getElem?_eq_getElem hi
  obtain ⟨q2, hq2, hrest⟩ := hall i ps1[i] hp0
  rw [hq] at hq2
  obtain rfl := Option.some_inj.mp hq2
  exact ⟨ps1[i], hp0, hrest⟩

theorem indivStep_cons (i : Nat) (rest : List Nat) (st : List Passenger × List String)
    (fb fe : List String) :
    indivStep (i :: rest) st fb fe =
      match st.1[i]? with
      | none => indivStep rest st fb fe
      | some p =>
        if hasSeat p then indivStep rest st fb fe
        else if is_infant p then indivStep rest st fb fe
        else if effType p = "business" then
          match fb with
          | [] => indivStep rest st fb fe
          | sn :: fb2 => indivStep rest (setSeat st.1 i sn, sn :: st.2) fb2 fe
        else
          match fe with
          | [] => indivStep rest st fb fe
          | sn :: fe2 => indivStep rest (setSeat st.1 i sn, sn :: st.2) fb fe2 := rfl

theorem engineInv_indivStep (H : Prop) (v : String) (ps1 : List Passenger)
    (used0 : List String) (idxs : List Nat) (st : List Passenger × List String)
    (fb fe : List String) (hinv : EngineInv H v ps1 used0 st)
    (hpool : PoolOk v st.2 fb fe) :
    EngineInv H v ps1 used0 (indivStep idxs st fb fe).1 := by
  induction idxs generalizing st fb fe with
  | nil => exact hinv
  | cons i rest ih =>
    rw [indivStep_cons]
    cases hq : st.1[i]? with
    | none => exact ih st fb fe hinv hpool
    | some p =>
      dsimp only
      by_cases hseat : hasSeat p
      · rw [if_pos hseat]
        exact ih st fb fe hinv hpool
      rw [if_neg hseat]
      by_cases hinf : is_infant p
      · rw [if_pos hinf]
        exact ih st fb fe hinv hpool
      rw [if_neg hinf]
      obtain ⟨p0, hp0, hid, hage, hst, hgid, hdisj⟩ :=
        frameOk_lookup v ps1 st.1 used0 hinv.2.1 i p hq
      have hp0seat : hasSeat p0 = false := by
        rcases hdisj with hsame | ⟨hs, _, _⟩
        · rw [← hasSeat_congr p0 p hsame]
          exact Bool.not_eq_true _ ▸ (by simpa using hseat)
        · exact hs
      have hp0inf : is_infant p0 = false := by
        rw [← is_infant_congr p0 p hage]
        exact Bool.not_eq_true _ ▸ (by simpa using hinf)
      have heff : effType p = effType p0 := effType_congr p0 p hst
      obtain ⟨hso, hfo, hsub⟩ := hinv
      by_cases hbiz : effType p = "business"
      · rw [if_pos hbiz]
        cases fb with
        | nil => exact ih st [] fe ⟨hso, hfo, hsub⟩ hpool
        | cons sn fb2 =>
          obtain ⟨hnu, hne, hty⟩ := hpool.2.1 sn (List.mem_cons_self _ _)
          have hcls : groupClassOk v ps1 p0 sn := by
            left
            rw [poolClass, ← heff, if_pos hbiz]
            exact hty
          refine ih (setSeat st.1 i sn, sn :: st.2) fb2 fe ⟨?_, ?_, ?_⟩ ?_
          · exact fun hH => seatsOk_setSeat st.1 st.2 i sn hnu hne (hso hH)
          · exact frameOk_setSeat v ps1 st.1 used0 i sn p0 hp0 hp0seat hp0inf hcls
              (fun hm => hnu (hsub hm)) hne hfo
          · exact fun x hx => List.mem_cons_of_mem _ (hsub hx)
          · exact poolOk_shift v st.2 fb2 fe sn hpool
      · rw [if_neg hbiz]
        cases fe with
        | nil => exact ih st fb [] ⟨hso, hfo, hsub⟩ hpool
        | cons sn fe2 =>
          obtain ⟨hnu, hne, hty⟩ := hpool.2.2 sn (List.mem_cons_self _ _)
          have hcls : groupClassOk v ps1 p0 sn := by
            left
            rw [poolClass, ← heff, if_neg hbiz]
            exact hty
          refine ih (setSeat st.1 i sn, sn :: st.2) fb fe2 ⟨?_, ?_, ?_⟩ ?_
          · exact fun hH => seatsOk_setSeat st.1 st.2 i sn hnu hne (hso hH)
          · exact frameOk_setSeat v ps1 st.1 used0 i sn p0 hp0 hp0seat hp0inf hcls
              (fun hm => hnu (hsub hm)) hne hfo
          · exact fun x hx => List.mem_cons_of_mem _ (hsub hx)
          · exact poolOk_shift_eco v st.2 fb fe2 sn hpool

/-! ### The initial state and the master engine theorem -/

theorem assign_seats_eq_engineFinal (v : String) (ps : List Passenger) :
    assign_seats v ps = (engineFinal v ps).1 := rfl

theorem normalizePass_fields (p : Passenger) :
    (normalizePass p).id = p.id ∧ (normalizePass p).age = p.age ∧
      (normalizePass p).seat_type = p.seat_type ∧ (normalizePass p).group_id = p.group_id := by
  rw [normalizePass]
  cases p.seat_no with
  | none => exact ⟨rfl, rfl, rfl, rfl⟩
  | some s =>
    dsimp only
    by_cases hs : s = ""
    · rw [if_pos hs]
      exact ⟨rfl, rfl, rfl, rfl⟩
    · rw [if_neg hs]
      exact ⟨rfl, rfl, rfl, rfl⟩

theorem usedEntry_of_norm (p : Passenger) (s : String)
    (h : (normalizePass p).seat_no = some s) (hne : s ≠ "") : usedEntry p = some s := by
  unfold normalizePass at h
  unfold usedEntry
  split at h
  next s0 heq =>
    by_cases hs0 : s0 = ""
    · exfalso
      rw [if_pos hs0] at h
      rw [heq] at h
      have h2 : s = "" := by
        rw [← Option.some_inj.mp h]
        exact hs0
      exact hne h2
    · rw [if_neg hs0] at h ⊢
      simpa using h
  next heq =>
    rw [heq] at h
    exact absurd h (by simp)

theorem filterMap_nodup_distinct (f : α → Option β) (l : List α)
    (h : (l.filterMap f).Nodup) (i j : Nat) (hij : i ≠ j) (a b : α)
    (ha : l[i]? = some a) (hb : l[j]? = some b) (s : β)
    (hfa : f a = some s) (hfb : f b = some s) : False := by
  induction l generalizing i j with
  | nil => simp at ha
  | cons x t ih =>
    rw [List.filterMap_cons] at h
    have htnd : (t.filterMap f).Nodup := by
      cases hfx : f x with
      | none => rw [hfx] at h; exact h
      | some y => rw [hfx] at h; exact (List.nodup_cons.mp h).2
    cases i with
    | zero =>
      have hax : x = a := by simpa using ha
      cases j with
      | zero => exact hij rfl
      | succ k =>
        have hbt : t[k]? = some b := by simpa using hb
        have hbmem : b ∈ t := by
          obtain ⟨hk, hbk⟩ := List.getElem?_eq_some_iff.mp hbt
          exact hbk ▸ List.getElem_mem hk
        have hsmem : s ∈ t.filterMap f := List.mem_filterMap.mpr ⟨b, hbmem, hfb⟩
        rw [← hax] at hfa
        rw [hfa] at h
        exact (List.nodup_cons.mp h).1 hsmem
    | succ k =>
      cases j with
      | zero =>
        have hbx : x = b := by simpa using hb
        have hat : t[k]? = some a := by simpa using ha
        have hamem : a ∈ t := by
          obtain ⟨hk2, hak⟩ := List.getElem?_eq_some_iff.mp hat
          exact hak ▸ List.getElem_mem hk2
        have hsmem : s ∈ t.filterMap f := List.mem_filterMap.mpr ⟨a, hamem, hfa⟩
        rw [← hbx] at hfb
        rw [hfb] at h
        exact (List.nodup_cons.mp h).1 hsmem
      | succ m =>
        exact ih htnd k m (fun he => hij (by omega)) (by simpa using ha) (by simpa using hb)

theorem seatsOk_init (ps : List Passenger) (h : (usedInit ps).Nodup) :
    SeatsOk (ps.map normalizePass) (usedInit ps) := by
  intro i j p q s hij hpi hqj hps hsne
  rw [List.getElem?_map] at hpi hqj
  cases hai : ps[i]? with
  | none => rw [hai] at hpi; exact absurd hpi (by simp)
  | some a =>
    rw [hai] at hpi
    have hp : normalizePass a = p := by simpa using hpi
    cases hbj : ps[j]? with
    | none => rw [hbj] at hqj; exact absurd hqj (by simp)
    | some b =>
      rw [hbj] at hqj
      have hq : normalizePass b = q := by simpa using hqj
      have hea : usedEntry a = some s := usedEntry_of_norm a s (by rw [hp]; exact hps) hsne
      have hamem : a ∈ ps := by
        obtain ⟨hk, hak⟩ := List.getElem?_eq_some_iff.mp hai
        exact hak ▸ List.getElem_mem hk
      refine ⟨List.mem_filterMap.mpr ⟨a, hamem, hea⟩, ?_⟩
      intro hqs
      have heb : usedEntry b = some s := usedEntry_of_norm b s (by rw [hq]; exact hqs) hsne
      exact filterMap_nodup_distinct usedEntry ps h i j hij a b hai hbj s hea heb

theorem frameOk_init (v : String) (ps : List Passenger) :
    FrameOk v (ps.map normalizePass) (ps.map normalizePass) (usedInit ps) :=
  ⟨rfl, fun i p hp => ⟨p, hp, rfl, rfl, rfl, rfl, Or.inl rfl⟩⟩

/-- Master invariant theorem for the engine: the final state of assign_seats
satisfies the frame invariant unconditionally, and the occupancy invariant
when the initially used seats are duplicate-free. -/
theorem engineFinal_inv (v : String) (ps : List Passenger) :
    EngineInv ((usedInit ps).Nodup) v (ps.map normalizePass) (usedInit ps)
      (engineFinal v ps) := by
  have hinit : EngineInv ((usedInit ps).Nodup) v (ps.map normalizePass) (usedInit ps)
      (ps.map normalizePass, usedInit ps) :=
    ⟨fun hH => seatsOk_init ps hH, frameOk_init v ps, fun x hx => hx⟩
  have hst1 : EngineInv ((usedInit ps).Nodup) v (ps.map normalizePass) (usedInit ps)
      (engineSt1 v ps) := by
    rw [engineSt1]
    apply engineInv_processGroups _ v _ _ _ _ _ (rowsOk_buildRowsIdx v (usedInit ps)) _ hinit
    intro g hg
    have hgc : g ∈ collectGroups (ps.map normalizePass) := mem_sortGroupsDesc _ g hg
    have hgc2 : (g.1, g.2) ∈ collectGroups (ps.map normalizePass) := by
      rw [Prod.mk.eta]
      exact hgc
    exact ⟨collectGroups_good (ps.map normalizePass) g.1 g.2 hgc2, hgc2⟩
  rw [engineFinal]
  exact engineInv_indivStep _ v _ _ _ _ _ _ hst1 (poolOk_init v (engineSt1 v ps).2)

/-! ### Corollaries of the master theorem and update_seat characterisation -/

theorem passenger_ext (p q : Passenger) (h1 : p.id = q.id) (h2 : p.age = q.age)
    (h3 : p.seat_type = q.seat_type) (h4 : p.seat_no = q.seat_no)
    (h5 : p.group_id = q.group_id) : p = q := by
  cases p
  cases q
  simp_all

theorem assign_seats_frame (v : String) (ps : List Passenger) :
    FrameOk v (ps.map normalizePass) (assign_seats v ps) (usedInit ps) := by
  rw [assign_seats_eq_engineFinal]
  exact (engineFinal_inv v ps).2.1

theorem assign_seats_lookup (v : String) (ps : List Passenger) (i : Nat) (p : Passenger)
    (hp : ps[i]? = some p) :
    ∃ q, (assign_seats v ps)[i]? = some q ∧ q.id = p.id ∧ q.age = p.age ∧
      q.seat_type = p.seat_type ∧ q.group_id = p.group_id ∧
      (q.seat_no = (normalizePass p).seat_no ∨
        (hasSeat (normalizePass p) = false ∧ is_infant p = false ∧
          ∃ t, q.seat_no = some t ∧ t ∉ usedInit ps ∧ t ≠ "" ∧
            groupClassOk v (ps.map normalizePass) (normalizePass p) t)) := by
  have hfo := assign_seats_frame v ps
  have hp1 : (ps.map normalizePass)[i]? = some (normalizePass p) := by
    rw [List.getElem?_map, hp]
    rfl
  obtain ⟨q, hq, hid, hage, hst, hgid, hdisj⟩ := hfo.2 i (normalizePass p) hp1
  obtain ⟨hfid, hfage, hfst, hfgid⟩ := normalizePass_fields p
  refine ⟨q, hq, hid.trans hfid, hage.trans hfage, hst.trans hfst, hgid.trans hfgid, ?_⟩
  rcases hdisj with hsame | ⟨hs, hi2, rest⟩
  · exact Or.inl hsame
  · refine Or.inr ⟨hs, ?_, rest⟩
    rw [← is_infant_congr p (normalizePass p) hfage]
    exact hi2

theorem assign_seats_untouched (v : String) (ps : List Passenger) (i : Nat) (p : Passenger)
    (hp : ps[i]? = some p)
    (hblock : hasSeat (normalizePass p) = true ∨ is_infant p = true) :
    (assign_seats v ps)[i]? = some (normalizePass p) := by
  obtain ⟨q, hq, hid, hage, hst, hgid, hdisj⟩ := assign_seats_lookup v ps i p hp
  obtain ⟨hfid, hfage, hfst, hfgid⟩ := normalizePass_fields p
  have hqeq : q = normalizePass p := by
    rcases hdisj with hsame | ⟨hs, hi2, _⟩
    · exact passenger_ext q (normalizePass p) (hid.trans hfid.symm) (hage.trans hfage.symm)
        (hst.trans hfst.symm) hsame (hgid.trans hfgid.symm)
    · rcases hblock with hb | hb
      · rw [hs] at hb
        exact absurd hb (by simp)
      · rw [hi2] at hb
        exact absurd hb (by simp)
  rw [hqeq] at hq
  exact hq

theorem hasSeat_normalizePass (p : Passenger) (s : String) (hs : p.seat_no = some s)
    (hne : normSeat s ≠ "") : hasSeat (normalizePass p) = true := by
  have hsne : s ≠ "" := by
    intro he
    rw [he] at hne
    exact hne rfl
  rw [normalizePass, hs]
  dsimp only
  rw [if_neg hsne]
  simp [hasSeat, hne]

theorem findTarget_some (snap : List Passenger) (pid : Int) (i : Nat) (t : Passenger)
    (h : findTarget snap pid = some (i, t)) : snap[i]? = some t ∧ t.id = pid := by
  induction snap generalizing i with
  | nil => exact absurd h (by simp [findTarget])
  | cons p rest ih =>
    rw [findTarget] at h
    split at h
    next hpid =>
      rw [Option.some_inj] at h
      have h1 : (0 : Nat) = i := congrArg Prod.fst h
      have h2 : p = t := congrArg Prod.snd h
      rw [← h1, ← h2]
      exact ⟨by simp, hpid⟩
    next hpid =>
      cases hf : findTarget rest pid with
      | none =>
        rw [hf] at h
        exact absurd h (by simp)
      | some q =>
        rw [hf] at h
        rw [Option.map_some'] at h
        rw [Option.some_inj] at h
        have h1 : q.1 + 1 = i := congrArg Prod.fst h
        have h2 : q.2 = t := congrArg Prod.snd h
        obtain ⟨hmem, hqid⟩ := ih q.1 (by rw [← h2, Prod.mk.eta]; exact hf)
        rw [← h1]
        refine ⟨?_, hqid⟩
        simpa using hmem

theorem occupiedBy_false (snap : List Passenger) (pid : Int) (ns : String)
    (h : occupiedBy snap pid ns = false) :
    ∀ q ∈ snap, q.id ≠ pid → ∀ s2, q.seat_no = some s2 → s2 ≠ "" → upperStr s2 ≠ ns := by
  intro q hq hqid s2 hs2 hs2ne
  rw [occupiedBy, List.any_eq_false] at h
  have hpred := h q hq
  rw [hs2] at hpred
  simp only [Bool.and_eq_true, decide_eq_true_eq, not_and] at hpred
  intro hup
  exact hpred ⟨hs2ne, hup⟩ hqid

theorem update_seat_h1 (vt : String) (snap : List Passenger) (pid : Int) (raw : String)
    (hm : seatTypeByNo vt (normSeat raw) = none) :
    update_seat vt snap pid raw = (.rejected .invalidSeat, snap) := by
  rw [update_seat, hm]

theorem update_seat_h2 (vt : String) (snap : List Passenger) (pid : Int) (raw : String)
    (cls : String) (hm : seatTypeByNo vt (normSeat raw) = some cls)
    (hf : findTarget snap pid = none) :
    update_seat vt snap pid raw = (.rejected .passengerNotFound, snap) := by
  rw [update_seat, hm, hf]

theorem update_seat_h3 (vt : String) (snap : List Passenger) (pid : Int) (raw : String)
    (cls : String) (i : Nat) (t : Passenger)
    (hm : seatTypeByNo vt (normSeat raw) = some cls)
    (hf : findTarget snap pid = some (i, t)) (hinf : is_infant t = true) :
    update_seat vt snap pid raw = (.rejected .infantForbidden, snap) := by
  rw [update_seat, hm, hf]
  dsimp only
  rw [if_pos hinf]

theorem update_seat_h4 (vt : String) (snap : List Passenger) (pid : Int) (raw : String)
    (cls : String) (i : Nat) (t : Passenger)
    (hm : seatTypeByNo vt (normSeat raw) = some cls)
    (hf : findTarget snap pid = some (i, t)) (hinf : is_infant t = false)
    (hcls : cls ≠ effType t) :
    update_seat vt snap pid raw = (.rejected (.classMismatch (effType t)), snap) := by
  rw [update_seat, hm, hf]
  dsimp only
  rw [if_neg (by simp [hinf]), if_pos hcls]

theorem update_seat_h5 (vt : String) (snap : List Passenger) (pid : Int) (raw : String)
    (cls : String) (i : Nat) (t : Passenger)
    (hm : seatTypeByNo vt (normSeat raw) = some cls)
    (hf : findTarget snap pid = some (i, t)) (hinf : is_infant t = false)
    (hcls : cls = effType t) (hocc : occupiedBy snap pid (normSeat raw) = true) :
    update_seat vt snap pid raw = (.rejected .seatOccupied, snap) := by
  rw [update_seat, hm, hf]
  dsimp only
  rw [if_neg (by simp [hinf]), if_neg (by simp [hcls]), if_pos hocc]

theorem update_seat_h6 (vt : String) (snap : List Passenger) (pid : Int) (raw : String)
    (cls : String) (i : Nat) (t : Passenger)
    (hm : seatTypeByNo vt (normSeat raw) = some cls)
    (hf : findTarget snap pid = some (i, t)) (hinf : is_infant t = false)
    (hcls : cls = effType t) (hocc : occupiedBy snap pid (normSeat raw) = false) :
    update_seat vt snap pid raw =
      (.updated t.seat_no, snap.set i { t with seat_no := some (normSeat raw) }) := by
  rw [update_seat, hm, hf]
  dsimp only
  rw [if_neg (by simp [hinf]), if_neg (by simp [hcls]), if_neg (by simp [hocc])]

/-! ### Grid projector support lemmas -/

theorem charListLe_refl (a : List Char) : charListLe a a = true := by
  induction a with
  | nil => rfl
  | cons x xs ih =>
    rw [charListLe]
    rw [if_neg (by exact fun h => Char.lt_irrefl x h), if_pos rfl]
    exact ih

theorem charListLe_total (a b : List Char) :
    charListLe a b = true ∨ charListLe b a = true := by
  induction a generalizing b with
  | nil => exact Or.inl rfl
  | cons x xs ih =>
    cases b with
    | nil => exact Or.inr rfl
    | cons y ys =>
      rcases lt_trichotomy x y with hlt | heq | hgt
      · left
        rw [charListLe, if_pos hlt]
      · subst heq
        rcases ih ys with h | h
        · left
          rw [charListLe, if_neg (by exact fun h2 => Char.lt_irrefl x h2), if_pos rfl]
          exact h
        · right
          rw [charListLe, if_neg (by exact fun h2 => Char.lt_irrefl x h2), if_pos rfl]
          exact h
      · right
        rw [charListLe, if_pos hgt]

theorem charListLe_trans (a b c : List Char) (hab : charListLe a b = true)
    (hbc : charListLe b c = true) : charListLe a c = true := by
  induction a generalizing b c with
  | nil => rfl
  | cons x xs ih =>
    cases b with
    | nil => exact absurd hab (by rw [charListLe]; simp)
    | cons y ys =>
      cases c with
      | nil => exact absurd hbc (by rw [charListLe]; simp)
      | cons z zs =>
        rw [charListLe] at hab hbc ⊢
        by_cases hxy : x < y
        · rw [if_pos hxy] at hab
          by_cases hyz : y < z
          · rw [if_pos (lt_trans hxy hyz)]
          · by_cases hyz2 : y = z
            · subst hyz2
              rw [if_pos hxy]
            · rw [if_neg hyz, if_neg hyz2] at hbc
              exact absurd hbc (by simp)
        · rw [if_neg hxy] at hab
          by_cases hxy2 : x = y
          · subst hxy2
            rw [if_pos rfl] at hab
            by_cases hxz : x < z
            · rw [if_pos hxz]
            · rw [if_neg hxz] at hbc
              by_cases hxz2 : x = z
              · rw [if_neg hxz, if_pos hxz2]
                rw [if_pos hxz2] at hbc
                exact ih ys zs hab hbc
              · rw [if_neg hxz2] at hbc
                exact absurd hbc (by simp)
          · rw [if_neg hxy2] at hab
            exact absurd hab (by simp)

theorem seatLookup_mem (ps : List Passenger) (sn : String) (p : Passenger)
    (h : seatLookup ps sn = some p) : p ∈ ps ∧ p.seat_no = some sn ∧ sn ≠ "" := by
  rw [seatLookup] at h
  obtain ⟨ys, hys⟩ := List.getLast?_eq_some_iff.mp h
  have hmem : p ∈ ps.filter (fun q =>
      match q.seat_no with
      | some s => s ≠ "" && s = sn
      | none => false) := by
    rw [hys]
    exact List.mem_append.mpr (Or.inr (List.mem_singleton_self p))
  rw [List.mem_filter] at hmem
  obtain ⟨hp, hpred⟩ := hmem
  cases hsn : p.seat_no with
  | none => rw [hsn] at hpred; exact absurd hpred (by simp)
  | some s =>
    rw [hsn] at hpred
    simp only [Bool.and_eq_true, decide_eq_true_eq] at hpred
    obtain ⟨hne, heq⟩ := hpred
    refine ⟨hp, by rw [heq], ?_⟩
    rw [← heq]
    exact hne

theorem build_seat_rows_eq (v : String) (ps : List Passenger) :
    build_seat_rows v ps =
      (sortBy (fun a b => a ≤ b)
        (dedup (((build_seat_map v).map (attachOcc ps)).map (fun sv => rowOf sv.seat_no)))).map
        (fun r => (r, sortBy seatNoLe
          (((build_seat_map v).map (attachOcc ps)).filter (fun sv => rowOf sv.seat_no = r)))) :=
  rfl

theorem build_seat_rows_keys_lt (v : String) (ps : List Passenger) :
    ((build_seat_rows v ps).map Prod.fst).Pairwise (fun a b => a < b) := by
  have hfst : ∀ (l : List Nat) (f : Nat → List SeatView),
      (l.map (fun r => (r, f r))).map Prod.fst = l := by
    intro l f
    induction l with
    | nil => rfl
    | cons a t ih => simp only [List.map_cons, ih]
  have hmap : (build_seat_rows v ps).map Prod.fst =
      sortBy (fun a b => a ≤ b)
        (dedup (((build_seat_map v).map (attachOcc ps)).map (fun sv => rowOf sv.seat_no))) := by
    rw [build_seat_rows_eq]
    exact hfst _ _
  rw [hmap]
  have hle := pairwise_sortBy (fun a b : Nat => a ≤ b)
    (fun a b c hab hbc => by
      simp only [decide_eq_true_eq] at hab hbc ⊢
      omega)
    (fun a b => by
      rcases Nat.le_total a b with h | h
      · exact Or.inl (by simpa using h)
      · exact Or.inr (by simpa using h))
    (dedup (((build_seat_map v).map (attachOcc ps)).map (fun sv => rowOf sv.seat_no)))
  have hnd := nodup_sortBy (fun a b : Nat => a ≤ b) _
    (nodup_dedup (((build_seat_map v).map (attachOcc ps)).map (fun sv => rowOf sv.seat_no)))
  rw [List.Nodup] at hnd
  refine (hle.and hnd).imp ?_
  intro a b hab
  obtain ⟨h1, h2⟩ := hab
  simp only [decide_eq_true_eq] at h1
  omega

theorem build_seat_rows_row_facts (v : String) (ps : List Passenger)
    (pr : Nat × List SeatView) (h : pr ∈ build_seat_rows v ps) :
    (∀ sv ∈ pr.2, rowOf sv.seat_no = pr.1 ∧
      (⟨sv.seat_no, sv.seat_type⟩ : Seat) ∈ build_seat_map v ∧
      sv.occupant = seatLookup ps sv.seat_no) ∧
    pr.2.Pairwise (fun a b => seatNoLe a b = true) := by
  rw [build_seat_rows_eq] at h
  obtain ⟨r, _, rfl⟩ := List.mem_map.mp h
  constructor
  · intro sv hsv
    have hsv2 := (mem_sortBy seatNoLe sv _).mp hsv
    rw [List.mem_filter] at hsv2
    obtain ⟨hsv3, hpred⟩ := hsv2
    obtain ⟨s, hs, rfl⟩ := List.mem_map.mp hsv3
    refine ⟨by simpa using hpred, ?_, rfl⟩
    show (⟨s.seat_no, s.seat_type⟩ : Seat) ∈ build_seat_map v
    have hse : (⟨s.seat_no, s.seat_type⟩ : Seat) = s := by
      cases s
      rfl
    rw [hse]
    exact hs
  · exact pairwise_sortBy seatNoLe
      (fun a b c hab hbc => charListLe_trans _ _ _ hab hbc)
      (fun a b => charListLe_total _ _) _

theorem build_seat_rows_complete (v : String) (ps : List Passenger) (s : Seat)
    (hs : s ∈ build_seat_map v) :
    ∃ pr ∈ build_seat_rows v ps, ∃ sv ∈ (pr : Nat × List SeatView).2,
      sv.seat_no = s.seat_no ∧ sv.seat_type = s.seat_type := by
  have hview : attachOcc ps s ∈ (build_seat_map v).map (attachOcc ps) :=
    List.mem_map_of_mem _ hs
  have hkey : rowOf s.seat_no ∈
      sortBy (fun a b => a ≤ b)
        (dedup (((build_seat_map v).map (attachOcc ps)).map (fun sv => rowOf sv.seat_no))) := by
    rw [mem_sortBy, mem_dedup]
    exact List.mem_map.mpr ⟨attachOcc ps s, hview, rfl⟩
  refine ⟨(rowOf s.seat_no, sortBy seatNoLe
      (((build_seat_map v).map (attachOcc ps)).filter
        (fun sv => rowOf sv.seat_no = rowOf s.seat_no))), ?_, attachOcc ps s, ?_, rfl, rfl⟩
  · rw [build_seat_rows_eq]
    exact List.mem_map.mpr ⟨rowOf s.seat_no, hkey, rfl⟩
  · rw [mem_sortBy, List.mem_filter]
    exact ⟨hview, by simp [attachOcc]⟩

/-! ### Disjointness of group buckets and frame lemmas for later passes -/

/-- All indices collected across the group buckets, in bucket order. -/
def flatIdxs (acc : List (Int × List Nat)) : List Nat :=
  acc.flatMap (fun g => g.2)

theorem flatIdxs_addToGroups_perm (acc : List (Int × List Nat)) (gid : Int) (i : Nat) :
    (flatIdxs (addToGroups acc gid i)).Perm (i :: flatIdxs acc) := by
  induction acc with
  | nil => simp [flatIdxs, addToGroups]
  | cons hd t ih =>
    obtain ⟨g0, l0⟩ := hd
    rw [addToGroups]
    split
    next heq =>
      subst heq
      have h1 : flatIdxs ((g0, l0 ++ [i]) :: t) = (l0 ++ [i]) ++ flatIdxs t := rfl
      have h2 : flatIdxs ((g0, l0) :: t) = l0 ++ flatIdxs t := rfl
      rw [h1, h2, List.append_assoc]
      exact List.perm_middle
    next =>
      have h1 : flatIdxs ((g0, l0) :: addToGroups t gid i) =
          l0 ++ flatIdxs (addToGroups t gid i) := rfl
      have h2 : flatIdxs ((g0, l0) :: t) = l0 ++ flatIdxs t := rfl
      rw [h1, h2]
      exact (List.Perm.append_left l0 ih).trans List.perm_middle

theorem flatIdxs_foldl_nodup (l : List (Nat × Passenger)) (acc : List (Int × List Nat))
    (hnd : (flatIdxs acc).Nodup) (hl : (l.map Prod.fst).Nodup)
    (hdisj : ∀ i ∈ flatIdxs acc, i ∉ l.map Prod.fst) :
    (flatIdxs (l.foldl
      (fun acc q =>
        match q.2.group_id with
        | some gid => addToGroups acc gid q.1
        | none => acc) acc)).Nodup := by
  induction l generalizing acc with
  | nil => exact hnd
  | cons q t ih =>
    rw [List.foldl_cons]
    rw [List.map_cons, List.nodup_cons] at hl
    cases hgid : q.2.group_id with
    | none =>
      exact ih acc hnd hl.2 (fun i hi => fun hmem =>
        hdisj i hi (List.mem_cons_of_mem _ hmem))
    | some gid =>
      apply ih (addToGroups acc gid q.1)
      · rw [(flatIdxs_addToGroups_perm acc gid q.1).nodup_iff]
        refine List.nodup_cons.mpr ⟨?_, hnd⟩
        intro hmem
        exact hdisj q.1 hmem (List.mem_cons_self _ _)
      · exact hl.2
      · intro i hi hmem
        have hi2 := (flatIdxs_addToGroups_perm acc gid q.1).mem_iff.mp hi
        rcases List.mem_cons.mp hi2 with rfl | hi3
        · exact hl.1 hmem
        · exact hdisj i hi3 (List.mem_cons_of_mem _ hmem)

theorem enum_filter_fst_nodup (ps : List Passenger) (pred : Nat × Passenger → Bool) :
    ((ps.enum.filter pred).map Prod.fst).Nodup := by
  have hsub : ((ps.enum.filter pred).map Prod.fst).Sublist (ps.enum.map Prod.fst) :=
    List.Sublist.map _ (List.filter_sublist _)
  refine List.Sublist.nodup hsub ?_
  rw [List.enum_map_fst]
  exact List.nodup_range _

theorem flatIdxs_collectGroups_nodup (ps : List Passenger) :
    (flatIdxs (collectGroups ps)).Nodup := by
  rw [collectGroups]
  apply flatIdxs_foldl_nodup
  · simp [flatIdxs]
  · exact enum_filter_fst_nodup ps _
  · simp [flatIdxs]

theorem insertGroupDesc_perm (g : Int × List Nat) (l : List (Int × List Nat)) :
    (insertGroupDesc g l).Perm (g :: l) := by
  induction l with
  | nil => rfl
  | cons h t ih =>
    rw [insertGroupDesc]
    split
    · exact (ih.cons h).trans (List.Perm.swap g h t)
    · rfl

theorem sortGroupsDesc_perm_aux (l acc : List (Int × List Nat)) :
    (l.foldl (fun acc g => insertGroupDesc g acc) acc).Perm (acc ++ l) := by
  induction l generalizing acc with
  | nil => simp
  | cons g t ih =>
    rw [List.foldl_cons]
    have h1 := ih (insertGroupDesc g acc)
    have h2 : (insertGroupDesc g acc ++ t).Perm ((g :: acc) ++ t) :=
      List.Perm.append_right t (insertGroupDesc_perm g acc)
    have h3 : ((g :: acc) ++ t : List (Int × List Nat)).Perm (acc ++ g :: t) :=
      List.perm_middle.symm
    exact (h1.trans h2).trans h3

theorem sortGroupsDesc_perm (l : List (Int × List Nat)) :
    (sortGroupsDesc l).Perm l := by
  have h := sortGroupsDesc_perm_aux l []
  simpa [sortGroupsDesc] using h

theorem flatIdxs_append (l1 l2 : List (Int × List Nat)) :
    flatIdxs (l1 ++ l2) = flatIdxs l1 ++ flatIdxs l2 := by
  simp [flatIdxs]

/-- Decomposing the sorted group list around one group: that group's indices
are disjoint from the indices of every group processed after it. -/
theorem sorted_groups_disjoint (ps : List Passenger) (l1 l2 : List (Int × List Nat))
    (g : Int × List Nat)
    (hdec : sortGroupsDesc (collectGroups ps) = l1 ++ g :: l2) :
    ∀ i ∈ g.2, ∀ g2 ∈ l2, i ∉ (g2 : Int × List Nat).2 := by
  have hnd : (flatIdxs (sortGroupsDesc (collectGroups ps))).Nodup := by
    have hperm := sortGroupsDesc_perm (collectGroups ps)
    have hp2 : (flatIdxs (sortGroupsDesc (collectGroups ps))).Perm
        (flatIdxs (collectGroups ps)) := by
      rw [flatIdxs, flatIdxs]
      exact hperm.flatMap_right _
    exact hp2.nodup_iff.mpr (flatIdxs_collectGroups_nodup ps)
  rw [hdec, flatIdxs_append] at hnd
  have hnd2 := (List.nodup_append.mp hnd).2.1
  rw [show flatIdxs (g :: l2) = g.2 ++ flatIdxs l2 from rfl] at hnd2
  have hdisj := List.disjoint_of_nodup_append hnd2
  intro i hi g2 hg2 hig2
  refine hdisj hi ?_
  rw [flatIdxs, List.mem_flatMap]
  exact ⟨g2, hg2, hig2⟩

theorem assignBlock_frame (st : List Passenger × List String) (l : List (Nat × String))
    (i : Nat) (h : ∀ pr ∈ l, (pr : Nat × String).1 ≠ i) :
    (assignBlock st l).1[i]? = st.1[i]? := by
  induction l generalizing st with
  | nil => rfl
  | cons hd t ih =>
    have hstep : assignBlock st (hd :: t) =
        assignBlock (setSeat st.1 hd.1 hd.2, hd.2 :: st.2) t := rfl
    rw [hstep]
    rw [ih (setSeat st.1 hd.1 hd.2, hd.2 :: st.2)
      (fun pr hpr => h pr (List.mem_cons_of_mem _ hpr))]
    exact getElem_setSeat_ne st.1 hd.1 hd.2 i (h hd (List.mem_cons_self _ _))

theorem processGroup_frame (v : String) (rowsIdx : List (Nat × List String × List String))
    (st : List Passenger × List String) (g : Int × List Nat) (i : Nat)
    (h : i ∉ g.2) : (processGroup v rowsIdx st g).1[i]? = st.1[i]? := by
  rw [processGroup]
  cases hscan : scanRows v st.2 rowsIdx g.2.length (wantedOf st.1 g.2) with
  | none => rfl
  | some block =>
    apply assignBlock_frame
    intro pr hpr
    intro he
    exact h (he ▸ (List.mem_zip hpr).1)

theorem processGroups_frame (v : String) (rowsIdx : List (Nat × List String × List String))
    (gs : List (Int × List Nat)) (st : List Passenger × List String) (i : Nat)
    (h : ∀ g ∈ gs, i ∉ (g : Int × List Nat).2) :
    (processGroups v rowsIdx gs st).1[i]? = st.1[i]? := by
  induction gs generalizing st with
  | nil => rfl
  | cons g t ih =>
    rw [processGroups, List.foldl_cons]
    rw [show List.foldl (processGroup v rowsIdx) (processGroup v rowsIdx st g) t =
      processGroups v rowsIdx t (processGroup v rowsIdx st g) from rfl]
    rw [ih (processGroup v rowsIdx st g) (fun g2 hg2 => h g2 (List.mem_cons_of_mem _ hg2))]
    exact processGroup_frame v rowsIdx st g i (h g (List.mem_cons_self _ _))

theorem indivStep_frame (idxs : List Nat) (st : List Passenger × List String)
    (fb fe : List String) (i : Nat) (p : Passenger)
    (hp : st.1[i]? = some p) (htruthy : hasSeat p = true) :
    (indivStep idxs st fb fe).1.1[i]? = some p := by
  induction idxs generalizing st fb fe with
  | nil => exact hp
  | cons j rest ih =>
    rw [indivStep_cons]
    cases hq : st.1[j]? with
    | none => exact ih st fb fe hp
    | some q =>
      dsimp only
      by_cases hji : j = i
      · subst hji
        rw [hp] at hq
        obtain rfl := Option.some_inj.mp hq
        rw [if_pos htruthy]
        exact ih st fb fe hp
      · by_cases hqs : hasSeat q
        · rw [if_pos hqs]
          exact ih st fb fe hp
        rw [if_neg hqs]
        by_cases hqi : is_infant q
        · rw [if_pos hqi]
          exact ih st fb fe hp
        rw [if_neg hqi]
        by_cases hbiz : effType q = "business"
        · rw [if_pos hbiz]
          cases fb with
          | nil => exact ih st [] fe hp
          | cons sn fb2 =>
            refine ih (setSeat st.1 j sn, sn :: st.2) fb2 fe ?_
            rw [getElem_setSeat_ne st.1 j sn i hji]
            exact hp
        · rw [if_neg hbiz]
          cases fe with
          | nil => exact ih st fb [] hp
          | cons sn fe2 =>
            refine ih (setSeat st.1 j sn, sn :: st.2) fb fe2 ?_
            rw [getElem_setSeat_ne st.1 j sn i hji]
            exact hp

theorem assignBlock_mem (st : List Passenger × List String) (l : List (Nat × String))
    (pr : Nat × String) (hpr : pr ∈ l) (hlen : pr.1 < st.1.length) :
    ∃ p, (assignBlock st l).1[pr.1]? = some p ∧
      ∃ q ∈ l, (q : Nat × String).1 = pr.1 ∧ p.seat_no = some q.2 := by
  induction l generalizing st pr with
  | nil => exact absurd hpr (List.not_mem_nil pr)
  | cons hd t ih =>
    have hstep : assignBlock st (hd :: t) =
        assignBlock (setSeat st.1 hd.1 hd.2, hd.2 :: st.2) t := rfl
    have hlen2 : pr.1 < (setSeat st.1 hd.1 hd.2).length := by
      rw [length_setSeat]
      exact hlen
    rcases List.mem_cons.mp hpr with rfl | hprt
    · by_cases htl : ∃ q ∈ t, (q : Nat × String).1 = pr.1
      · obtain ⟨q, hqt, hq1⟩ := htl
        obtain ⟨p, hfin, q2, hq2t, hq21, hq2s⟩ :=
          ih (setSeat st.1 pr.1 pr.2, pr.2 :: st.2) q hqt (by rw [length_setSeat]; omega)
        rw [hstep]
        rw [hq1] at hfin
        exact ⟨p, hfin, q2, List.mem_cons_of_mem _ hq2t, hq21.trans hq1, hq2s⟩
      · push_neg at htl
        rw [hstep]
        cases horig : st.1[pr.1]? with
        | none =>
          exfalso
          rw [List.getElem?_eq_some_iff.mpr ⟨hlen, rfl⟩] at horig
          exact absurd horig (by simp)
        | some p0 =>
          refine ⟨{ p0 with seat_no := some pr.2 }, ?_, pr, List.mem_cons_self _ _, rfl, rfl⟩
          rw [assignBlock_frame _ t pr.1 (fun q hq => htl q hq)]
          exact getElem_setSeat_self st.1 pr.1 pr.2 p0 horig
    · obtain ⟨p, hfin, q2, hq2t, hq21, hq2s⟩ :=
        ih (setSeat st.1 hd.1 hd.2, hd.2 :: st.2) pr hprt hlen2
      rw [hstep]
      exact ⟨p, hfin, q2, List.mem_cons_of_mem _ hq2t, hq21, hq2s⟩

/-! ### Claim theorems -/

theorem normalizePass_id_of_untruthy (p : Passenger)
    (h : p.seat_no = none ∨ p.seat_no = some "") : normalizePass p = p := by
  rw [normalizePass]
  rcases h with h | h
  · rw [h]
  · rw [h]
    dsimp only
    rw [if_pos rfl]

/-- Claim C7: determinism of the assignment engine — two calls on identical
input (same vehicle type string, same passenger list in the same order)
return identical output. The embedding of assign_seats is a pure function of
its two arguments; the Python it models iterates dicts in insertion order and
uses stable sorts, so it carries no other input. -/
theorem c7_determinism (v1 v2 : String) (ps1 ps2 : List Passenger)
    (hv : v1 = v2) (hp : ps1 = ps2) : assign_seats v1 ps1 = assign_seats v2 ps2 := by
  rw [hv, hp]

theorem c7_determinism_witness :
    ("A320" : String) = "A320" ∧ scenarioPs = scenarioPs ∧
      assign_seats "A320" scenarioPs = assign_seats "A320" scenarioPs :=
  ⟨rfl, rfl, c7_determinism "A320" "A320" scenarioPs scenarioPs rfl rfl⟩

/-- Claim C8: unknown-aircraft fallback — build_seat_map is total, and on any
vehicle-type string outside A320/B737/A321 it returns the default layout of
20 rows with 3 business rows over columns A-F, which is exactly the A320
layout. -/
theorem c8_unknown_fallback (v : String) (h1 : v ≠ "A320") (h2 : v ≠ "B737")
    (h3 : v ≠ "A321") :
    build_seat_map v = mkSeatMap 20 3 ∧ build_seat_map v = build_seat_map "A320" := by
  have hcfg : cfg v = (20, 3) := by rw [cfg, if_neg h1, if_neg h2, if_neg h3]
  constructor
  · rw [build_seat_map, hcfg]
  · rw [build_seat_map, hcfg]
    rfl

theorem c8_unknown_fallback_witness :
    ("B747" : String) ≠ "A320" ∧ ("B747" : String) ≠ "B737" ∧ ("B747" : String) ≠ "A321" ∧
      build_seat_map "B747" = mkSeatMap 20 3 ∧ build_seat_map "B747" = build_seat_map "A320" := by
  refine ⟨by decide, by decide, by decide, ?_⟩
  exact c8_unknown_fallback "B747" (by decide) (by decide) (by decide)

/-- Claim C5 (amended): a passenger whose incoming seat_no is non-null and
trims to a non-empty string leaves assign_seats as exactly the normalised
record: the seat_no is the stripped upper-cased input value (so a seat number
that is already trimmed and upper-case is retained verbatim), and no other
field changes. The literal claim — the exact input value is retained — fails
for inputs that are not already normalised (see the counterexample). -/
theorem c5_preseated_normalized (v : String) (ps : List Passenger) (i : Nat)
    (p : Passenger) (s : String) (hp : ps[i]? = some p) (hs : p.seat_no = some s)
    (hne : normSeat s ≠ "") :
    (assign_seats v ps)[i]? = some (normalizePass p) ∧
      (normalizePass p).seat_no = some (normSeat s) := by
  have htr := hasSeat_normalizePass p s hs hne
  refine ⟨assign_seats_untouched v ps i p hp (Or.inl htr), ?_⟩
  have hsne : s ≠ "" := fun he => hne (by rw [he]; rfl)
  rw [normalizePass, hs]
  dsimp only
  rw [if_neg hsne]

theorem c5_preseated_normalized_witness :
    (([⟨1, none, some "economy", some "7C", none⟩] : List Passenger)[0]? =
        some ⟨1, none, some "economy", some "7C", none⟩) ∧
      normSeat "7C" ≠ "" ∧
      (assign_seats "A320" [⟨1, none, some "economy", some "7C", none⟩])[0]? =
        some (normalizePass ⟨1, none, some "economy", some "7C", none⟩) := by
  refine ⟨by decide, by decide, ?_⟩
  exact (c5_preseated_normalized "A320" [⟨1, none, some "economy", some "7C", none⟩] 0
    ⟨1, none, some "economy", some "7C", none⟩ "7C" (by decide) (by decide) (by decide)).1

theorem c5_preseated_normalized_cx :
    assign_seats "A320" [⟨1, none, some "economy", some " 1a", none⟩] =
        [⟨1, none, some "economy", some "1A", none⟩] ∧
      (" 1a" : String) ≠ "1A" := by
  decide

/-- Claim C10 (amended): a passenger whose incoming seat_no is non-null and
trims to a non-empty string is never validated or cleared by assign_seats —
even an infant, even a seat number outside the aircraft layout, even one of
the wrong class keeps its trimmed upper-cased value; that value is recorded
in the initially used set, and no other passenger can end the call holding it
unless it already held it at input. The literal claim — any non-empty
seat_no is kept in trimmed upper-cased form — fails for a whitespace-only
seat_no, which normalises to the empty string and is then treated as
unseated (see the counterexample). -/
theorem c10_preseated_protected (v : String) (ps : List Passenger) (i : Nat)
    (p : Passenger) (s : String) (hp : ps[i]? = some p) (hs : p.seat_no = some s)
    (hne : normSeat s ≠ "") :
    (assign_seats v ps)[i]? = some (normalizePass p) ∧
      normSeat s ∈ usedInit ps ∧
      (∀ (j : Nat) (q q2 : Passenger), j ≠ i → ps[j]? = some q →
        (assign_seats v ps)[j]? = some q2 → q2.seat_no = some (normSeat s) →
        q2.seat_no = (normalizePass q).seat_no) := by
  have hsne : s ≠ "" := fun he => hne (by rw [he]; rfl)
  have htr := hasSeat_normalizePass p s hs hne
  have hmemp : p ∈ ps := by
    obtain ⟨hk, hak⟩ := List.getElem?_eq_some_iff.mp hp
    exact hak ▸ List.getElem_mem hk
  refine ⟨assign_seats_untouched v ps i p hp (Or.inl htr), ?_, ?_⟩
  · refine List.mem_filterMap.mpr ⟨p, hmemp, ?_⟩
    rw [usedEntry, hs]
    dsimp only
    rw [if_neg hsne]
  · intro j q q2 hji hq hq2 hq2s
    obtain ⟨q0, hq0, _, _, _, _, hdisj⟩ := assign_seats_lookup v ps j q hq
    have hqq : q2 = q0 := by
      rw [hq2] at hq0
      exact Option.some_inj.mp hq0
    subst hqq
    rcases hdisj with hsame | ⟨_, _, t, hts, htnu, _, _⟩
    · exact hsame
    · exfalso
      rw [hts] at hq2s
      obtain rfl := Option.some_inj.mp hq2s
      apply htnu
      refine List.mem_filterMap.mpr ⟨p, hmemp, ?_⟩
      rw [usedEntry, hs]
      dsimp only
      rw [if_neg hsne]

theorem c10_preseated_protected_witness :
    (([⟨1, some 1, some "business", some "99Z", none⟩,
        ⟨2, none, some "economy", none, none⟩] : List Passenger)[0]? =
      some ⟨1, some 1, some "business", some "99Z", none⟩) ∧
      normSeat "99Z" ≠ "" ∧
      (assign_seats "A320" [⟨1, some 1, some "business", some "99Z", none⟩,
          ⟨2, none, some "economy", none, none⟩])[0]? =
        some (normalizePass ⟨1, some 1, some "business", some "99Z", none⟩) ∧
      normSeat "99Z" ∈ usedInit [⟨1, some 1, some "business", some "99Z", none⟩,
        ⟨2, none, some "economy", none, none⟩] := by
  refine ⟨by decide, by decide, ?_, ?_⟩
  · exact (c10_preseated_protected "A320"
      [⟨1, some 1, some "business", some "99Z", none⟩, ⟨2, none, some "economy", none, none⟩]
      0 ⟨1, some 1, some "business", some "99Z", none⟩ "99Z"
      (by decide) (by decide) (by decide)).1
  · exact (c10_preseated_protected "A320"
      [⟨1, some 1, some "business", some "99Z", none⟩, ⟨2, none, some "economy", none, none⟩]
      0 ⟨1, some 1, some "business", some "99Z", none⟩ "99Z"
      (by decide) (by decide) (by decide)).2.1

theorem c10_preseated_protected_cx :
    assign_seats "A320" [⟨1, none, none, some " ", none⟩] =
        [⟨1, none, none, some "4A", none⟩] ∧
      normSeat " " = "" ∧ ("4A" : String) ≠ normSeat " " := by
  decide

/-- Claim C3 (amended): infants (non-null age at most 2) are never seated.
In assign_seats an infant's record leaves the call exactly as the
normalisation pass left it — in particular a null or empty incoming seat_no
stays exactly as it was. In the manual editor every request targeting an
infant is rejected with the snapshot unchanged; the rejection reason is the
infant-seating-forbidden one whenever the requested seat number is valid for
the aircraft, but an invalid seat number is reported as invalid-seat first
(the literal claim, which promises the infant reason for every request,
fails there — see the counterexample). -/
theorem c3_infant_exclusion :
    (∀ (v : String) (ps : List Passenger) (i : Nat) (p : Passenger), ps[i]? = some p →
      is_infant p = true →
      (assign_seats v ps)[i]? = some (normalizePass p) ∧
        ((p.seat_no = none ∨ p.seat_no = some "") → (assign_seats v ps)[i]? = some p)) ∧
    (∀ (vt : String) (snap : List Passenger) (pid : Int) (raw : String) (i : Nat)
        (t : Passenger),
      findTarget snap pid = some (i, t) → is_infant t = true →
      ∃ r, update_seat vt snap pid raw = (EditOutcome.rejected r, snap) ∧
        (∀ cls, seatTypeByNo vt (normSeat raw) = some cls → r = Reason.infantForbidden)) := by
  constructor
  · intro v ps i p hp hinf
    have h1 := assign_seats_untouched v ps i p hp (Or.inr hinf)
    refine ⟨h1, ?_⟩
    intro hun
    rw [normalizePass_id_of_untruthy p hun] at h1
    exact h1
  · intro vt snap pid raw i t hf hinf
    cases hm : seatTypeByNo vt (normSeat raw) with
    | none =>
      refine ⟨Reason.invalidSeat, update_seat_h1 vt snap pid raw hm, ?_⟩
      intro cls hcls
      exact absurd hcls (by simp)
    | some cls =>
      exact ⟨Reason.infantForbidden, update_seat_h3 vt snap pid raw cls i t hm hf hinf,
        fun _ _ => rfl⟩

theorem c3_infant_exclusion_witness :
    (scenarioPs[0]? = some ⟨1, some 2, some "economy", none, some 1⟩) ∧
      is_infant ⟨1, some 2, some "economy", none, some 1⟩ = true ∧
      (assign_seats "A320" scenarioPs)[0]? = some ⟨1, some 2, some "economy", none, some 1⟩ ∧
      (findTarget scenarioPs 1 = some (0, ⟨1, some 2, some "economy", none, some 1⟩)) ∧
      ∃ r, update_seat "A320" scenarioPs 1 "5C" = (EditOutcome.rejected r, scenarioPs) ∧
        (∀ cls, seatTypeByNo "A320" (normSeat "5C") = some cls →
          r = Reason.infantForbidden) := by
  refine ⟨by decide, by decide, ?_, by decide, ?_⟩
  · exact (c3_infant_exclusion.1 "A320" scenarioPs 0 ⟨1, some 2, some "economy", none, some 1⟩
      (by decide) (by decide)).2 (Or.inl rfl)
  · exact c3_infant_exclusion.2 "A320" scenarioPs 1 "5C" 0
      ⟨1, some 2, some "economy", none, some 1⟩ (by decide) (by decide)

theorem c3_infant_exclusion_cx :
    update_seat "A320" [⟨1, some 1, some "economy", none, none⟩] 1 "0Z" =
        (EditOutcome.rejected Reason.invalidSeat, [⟨1, some 1, some "economy", none, none⟩]) ∧
      Reason.invalidSeat ≠ Reason.infantForbidden ∧
      is_infant ⟨1, some 1, some "economy", none, none⟩ = true := by
  decide

/-- Claim C2 (amended): every seat assigned during an assign_seats call has a
justified class — either the class of the passenger's own fallback pool
(business exactly when the requested seat_type is the string "business",
economy otherwise, so null, empty and unknown type strings draw from
economy), or, for a passenger collected into a group, the class targeted by
that group, namely its first member's requested type. The literal claim —
the seat class always equals the passenger's own requested seat_type — fails
for a group whose members request different classes (see the
counterexample). -/
theorem c2_class_correctness (v : String) (ps : List Passenger) (i : Nat) (p q : Passenger)
    (hp : ps[i]? = some p) (hq : (assign_seats v ps)[i]? = some q)
    (hch : q.seat_no ≠ (normalizePass p).seat_no) :
    ∃ t, q.seat_no = some t ∧
      (seatTypeByNo v t = some (poolClass p) ∨
        ∃ gid idxs, p.group_id = some gid ∧
          (gid, idxs) ∈ collectGroups (ps.map normalizePass) ∧
          seatTypeByNo v t = some (wantedOf (ps.map normalizePass) idxs)) := by
  obtain ⟨q0, hq0, _, _, _, _, hdisj⟩ := assign_seats_lookup v ps i p hp
  have hqq : q = q0 := by
    rw [hq] at hq0
    exact Option.some_inj.mp hq0
  subst hqq
  rcases hdisj with hsame | ⟨_, _, t, hts, _, _, hcls⟩
  · exact absurd hsame hch
  · refine ⟨t, hts, ?_⟩
    rcases hcls with hl | ⟨gid, idxs, hg, hmem, hw⟩
    · left
      have he : effType (normalizePass p) = effType p :=
        effType_congr p (normalizePass p) (normalizePass_fields p).2.2.1
      rw [poolClass] at hl ⊢
      rw [he] at hl
      exact hl
    · right
      refine ⟨gid, idxs, ?_, hmem, hw⟩
      rw [← (normalizePass_fields p).2.2.2]
      exact hg

theorem c2_class_correctness_witness :
    (([⟨1, none, some "economy", none, some 1⟩,
        ⟨2, none, some "business", none, some 1⟩] : List Passenger)[1]? =
      some ⟨2, none, some "business", none, some 1⟩) ∧
      ((assign_seats "A320" [⟨1, none, some "economy", none, some 1⟩,
          ⟨2, none, some "business", none, some 1⟩])[1]? =
        some ⟨2, none, some "business", some "4B", some 1⟩) ∧
      ∃ t, (⟨2, none, some "business", some "4B", some 1⟩ : Passenger).seat_no = some t ∧
        (seatTypeByNo "A320" t =
            some (poolClass ⟨2, none, some "business", none, some 1⟩) ∨
          ∃ gid idxs,
            (⟨2, none, some "business", none, some 1⟩ : Passenger).group_id = some gid ∧
            (gid, idxs) ∈ collectGroups
              ([⟨1, none, some "economy", none, some 1⟩,
                ⟨2, none, some "business", none, some 1⟩].map normalizePass) ∧
            seatTypeByNo "A320" t =
              some (wantedOf ([⟨1, none, some "economy", none, some 1⟩,
                ⟨2, none, some "business", none, some 1⟩].map normalizePass) idxs)) := by
  refine ⟨by decide, by decide, ?_⟩
  exact c2_class_correctness "A320"
    [⟨1, none, some "economy", none, some 1⟩, ⟨2, none, some "business", none, some 1⟩]
    1 ⟨2, none, some "business", none, some 1⟩ ⟨2, none, some "business", some "4B", some 1⟩
    (by decide) (by decide) (by decide)

theorem c2_class_correctness_cx :
    assign_seats "A320"
        [⟨1, none, some "economy", none, some 1⟩, ⟨2, none, some "business", none, some 1⟩] =
      [⟨1, none, some "economy", some "4A", some 1⟩,
        ⟨2, none, some "business", some "4B", some 1⟩] ∧
      seatTypeByNo "A320" "4B" = some "economy" ∧
      (⟨2, none, some "business", some "4B", some 1⟩ : Passenger).seat_type =
        some "business" ∧ some "economy" ≠ (some "business" : Option String) := by
  decide

theorem filterMap_some_id (l : List Passenger) :
    l.filterMap (fun p => some p.id) = l.map Passenger.id := by
  induction l with
  | nil => rfl
  | cons x t ih =>
    rw [List.filterMap_cons, List.map_cons]
    dsimp only
    rw [ih]

theorem map_id_nodup_distinct (l : List Passenger) (h : (l.map Passenger.id).Nodup)
    (i j : Nat) (hij : i ≠ j) (a b : Passenger) (ha : l[i]? = some a)
    (hb : l[j]? = some b) (hid : a.id = b.id) : False := by
  rw [← filterMap_some_id] at h
  exact filterMap_nodup_distinct (fun p => some p.id) l h i j hij a b ha hb a.id rfl
    (by rw [hid])

/-- Claim C1 (amended): no double occupancy. Provided the normalised
pre-seated seat numbers of the input are pairwise distinct, no two distinct
positions of the assign_seats output hold the same non-null non-empty
seat_no. A successful manual seat edit never writes a seat that any other
passenger (different id) of the snapshot holds, and — when the snapshot's
passenger ids are pairwise distinct — it preserves the pairwise-distinct-seat
property of the snapshot. The literal claim, with no precondition on the
input, fails when two passengers arrive pre-seated on the same seat (see the
counterexample). -/
theorem c1_no_double_occupancy :
    (∀ (v : String) (ps : List Passenger), (usedInit ps).Nodup →
      ∀ (i j : Nat) (p q : Passenger) (s : String), i ≠ j →
        (assign_seats v ps)[i]? = some p → (assign_seats v ps)[j]? = some q →
        p.seat_no = some s → s ≠ "" → q.seat_no ≠ some s) ∧
    (∀ (vt : String) (snap : List Passenger) (pid : Int) (raw : String)
        (old : Option String) (snap2 : List Passenger),
      update_seat vt snap pid raw = (EditOutcome.updated old, snap2) →
      ∀ q ∈ snap, q.id ≠ pid → q.seat_no ≠ some (normSeat raw)) ∧
    (∀ (vt : String) (snap : List Passenger) (pid : Int) (raw : String)
        (old : Option String) (snap2 : List Passenger),
      update_seat vt snap pid raw = (EditOutcome.updated old, snap2) →
      (snap.map Passenger.id).Nodup →
      (∀ (i j : Nat) (p q : Passenger) (s : String), i ≠ j → snap[i]? = some p →
        snap[j]? = some q → p.seat_no = some s → s ≠ "" → q.seat_no ≠ some s) →
      ∀ (i j : Nat) (p q : Passenger) (s : String), i ≠ j → snap2[i]? = some p →
        snap2[j]? = some q → p.seat_no = some s → s ≠ "" → q.seat_no ≠ some s) := by
  have hupd : ∀ (vt : String) (snap : List Passenger) (pid : Int) (raw : String)
      (old : Option String) (snap2 : List Passenger),
      update_seat vt snap pid raw = (EditOutcome.updated old, snap2) →
      ∃ cls idx t, seatTypeByNo vt (normSeat raw) = some cls ∧
        findTarget snap pid = some (idx, t) ∧ is_infant t = false ∧ cls = effType t ∧
        occupiedBy snap pid (normSeat raw) = false ∧ old = t.seat_no ∧
        snap2 = snap.set idx { t with seat_no := some (normSeat raw) } := by
    intro vt snap pid raw old snap2 hsucc
    cases hm : seatTypeByNo vt (normSeat raw) with
    | none =>
      rw [update_seat_h1 vt snap pid raw hm] at hsucc
      exact absurd (congrArg Prod.fst hsucc) (by simp)
    | some cls =>
      cases hf : findTarget snap pid with
      | none =>
        rw [update_seat_h2 vt snap pid raw cls hm hf] at hsucc
        exact absurd (congrArg Prod.fst hsucc) (by simp)
      | some it =>
        have hf2 : findTarget snap pid = some (it.1, it.2) := by
          rw [Prod.mk.eta]
          exact hf
        by_cases hinf : is_infant it.2
        · rw [update_seat_h3 vt snap pid raw cls it.1 it.2 hm hf2 hinf] at hsucc
          exact absurd (congrArg Prod.fst hsucc) (by simp)
        · have hinf2 : is_infant it.2 = false := by simpa using hinf
          by_cases hcls : cls = effType it.2
          · by_cases hocc : occupiedBy snap pid (normSeat raw) = true
            · rw [update_seat_h5 vt snap pid raw cls it.1 it.2 hm hf2 hinf2 hcls hocc]
                at hsucc
              exact absurd (congrArg Prod.fst hsucc) (by simp)
            · have hocc2 : occupiedBy snap pid (normSeat raw) = false := by simpa using hocc
              rw [update_seat_h6 vt snap pid raw cls it.1 it.2 hm hf2 hinf2 hcls hocc2]
                at hsucc
              have h1 := congrArg Prod.fst hsucc
              have h2 := congrArg Prod.snd hsucc
              simp only at h1 h2
              refine ⟨cls, it.1, it.2, rfl, by rw [Prod.mk.eta], hinf2, hcls, hocc2, ?_,
                h2.symm⟩
              injection h1 with h3
              exact h3.symm
          · rw [update_seat_h4 vt snap pid raw cls it.1 it.2 hm hf2 hinf2 hcls] at hsucc
            exact absurd (congrArg Prod.fst hsucc) (by simp)
  have hother : ∀ (vt : String) (snap : List Passenger) (pid : Int) (raw : String)
      (old : Option String) (snap2 : List Passenger),
      update_seat vt snap pid raw = (EditOutcome.updated old, snap2) →
      ∀ q ∈ snap, q.id ≠ pid → q.seat_no ≠ some (normSeat raw) := by
    intro vt snap pid raw old snap2 hsucc q hqmem hqid hqs
    obtain ⟨cls, idx, t, hm, hf, _, _, hocc, _, _⟩ :=
      hupd vt snap pid raw old snap2 hsucc
    have hnsne : normSeat raw ≠ "" := by
      obtain ⟨s2, hs2mem, hs2no⟩ := (mem_allSeats vt (normSeat raw)).mp
        ((seatTypeByNo_isSome vt (normSeat raw)).mp ⟨cls, hm⟩)
      obtain ⟨_, _, _, _, _, _, _, _, hne⟩ := seat_shape vt s2 hs2mem
      rw [← hs2no]
      exact hne
    have hfalse := occupiedBy_false snap pid (normSeat raw) hocc q hqmem hqid
      (normSeat raw) hqs hnsne
    exact hfalse (upperStr_normSeat raw)
  refine ⟨?_, hother, ?_⟩
  · intro v ps hnd i j p q s hij hpi hqj hps hsne
    rw [assign_seats_eq_engineFinal] at hpi hqj
    exact ((engineFinal_inv v ps).1 hnd i j p q s hij hpi hqj hps hsne).2
  · intro vt snap pid raw old snap2 hsucc hids hold i j p q s hij hpi hqj hps hsne
    obtain ⟨cls, idx, t, hm, hf, _, _, hocc, _, hsnap2⟩ :=
      hupd vt snap pid raw old snap2 hsucc
    obtain ⟨htmem, htid⟩ := findTarget_some snap pid idx t hf
    have hnsne : normSeat raw ≠ "" := by
      obtain ⟨s2, hs2mem, hs2no⟩ := (mem_allSeats vt (normSeat raw)).mp
        ((seatTypeByNo_isSome vt (normSeat raw)).mp ⟨cls, hm⟩)
      obtain ⟨_, _, _, _, _, _, _, _, hne⟩ := seat_shape vt s2 hs2mem
      rw [← hs2no]
      exact hne
    subst hsnap2
    by_cases hii : i = idx
    · subst hii
      have hidx : i < snap.length := (List.getElem?_eq_some_iff.mp htmem).1
      rw [List.getElem?_set, if_pos rfl, if_pos hidx] at hpi
      have hpt : p = { t with seat_no := some (normSeat raw) } :=
        (Option.some_inj.mp hpi).symm
      have hsn : s = normSeat raw := by
        rw [hpt] at hps
        exact (Option.some_inj.mp hps).symm
      subst hsn
      rw [List.getElem?_set, if_neg hij] at hqj
      intro hqcontra
      have hqmem : q ∈ snap := by
        obtain ⟨hk, hqk⟩ := List.getElem?_eq_some_iff.mp hqj
        exact hqk ▸ List.getElem_mem hk
      have hqid : q.id ≠ pid := by
        intro he
        exact map_id_nodup_distinct snap hids j i (fun h2 => hij h2.symm) q t hqj htmem
          (he.trans htid.symm)
      exact hother vt snap pid raw old _ hsucc q hqmem hqid hqcontra
    · rw [List.getElem?_set, if_neg (fun he => hii he.symm)] at hpi
      by_cases hji : j = idx
      · subst hji
        have hidx : j < snap.length := (List.getElem?_eq_some_iff.mp htmem).1
        rw [List.getElem?_set, if_pos rfl, if_pos hidx] at hqj
        have hqt : q = { t with seat_no := some (normSeat raw) } :=
          (Option.some_inj.mp hqj).symm
        rw [hqt]
        intro hqcontra
        have hsn2 : normSeat raw = s := by
          have := congrArg (fun o => o) hqcontra
          simpa using hqcontra
        have hpmem : p ∈ snap := by
          obtain ⟨hk, hpk⟩ := List.getElem?_eq_some_iff.mp hpi
          exact hpk ▸ List.getElem_mem hk
        have hpid : p.id ≠ pid := by
          intro he
          exact map_id_nodup_distinct snap hids i j hij p t hpi htmem (he.trans htid.symm)
        have := hother vt snap pid raw old _ hsucc p hpmem hpid
        rw [hsn2] at this
        exact this hps
      · rw [List.getElem?_set, if_neg (fun he => hji he.symm)] at hqj
        exact hold i j p q s hij hpi hqj hps hsne

theorem c1_no_double_occupancy_witness :
    ((usedInit [⟨1, none, some "economy", some "10A", none⟩,
        ⟨2, none, some "economy", none, none⟩]).Nodup) ∧
      ((0 : Nat) ≠ 1) ∧
      ((assign_seats "A320" [⟨1, none, some "economy", some "10A", none⟩,
          ⟨2, none, some "economy", none, none⟩])[0]? =
        some ⟨1, none, some "economy", some "10A", none⟩) ∧
      ((assign_seats "A320" [⟨1, none, some "economy", some "10A", none⟩,
          ⟨2, none, some "economy", none, none⟩])[1]? =
        some ⟨2, none, some "economy", some "4A", none⟩) ∧
      (⟨2, none, some "economy", some "4A", none⟩ : Passenger).seat_no ≠ some "10A" := by
  refine ⟨by decide, by decide, by decide, by decide, ?_⟩
  exact c1_no_double_occupancy.1 "A320"
    [⟨1, none, some "economy", some "10A", none⟩, ⟨2, none, some "economy", none, none⟩]
    (by decide) 0 1 ⟨1, none, some "economy", some "10A", none⟩
    ⟨2, none, some "economy", some "4A", none⟩ "10A"
    (by decide) (by decide) (by decide) (by decide) (by decide)

theorem c1_no_double_occupancy_cx :
    assign_seats "A320"
        [⟨1, none, some "economy", some "1A", none⟩,
          ⟨2, none, some "economy", some "1A", none⟩] =
      [⟨1, none, some "economy", some "1A", none⟩,
        ⟨2, none, some "economy", some "1A", none⟩] ∧
      ("1A" : String) ≠ "" := by
  decide

/-- Claim C9: the grid projector contract. build_seat_rows returns the seats
of the aircraft grouped by parsed numeric row, with row keys strictly
ascending; every listed seat is a seat of the seat map placed under its own
row key and every seat of the map appears; within a row, seats are ordered
ascending by seat identifier (lexicographic string comparison); each seat
carries as its only possible occupant the value of seatLookup — the last
passenger in list order whose truthy seat_no equals the seat identifier
exactly — and any attached occupant is an element of the input passenger
list, unmodified, whose seat_no is exactly that seat identifier. In the
single-occupant A320 scenario only seat 1A carries an occupant. -/
theorem c9_grid_projector :
    (∀ (v : String) (ps : List Passenger),
      ((build_seat_rows v ps).map Prod.fst).Pairwise (fun a b => a < b) ∧
      (∀ pr ∈ build_seat_rows v ps,
        (∀ sv ∈ (pr : Nat × List SeatView).2, rowOf sv.seat_no = pr.1 ∧
          (⟨sv.seat_no, sv.seat_type⟩ : Seat) ∈ build_seat_map v ∧
          sv.occupant = seatLookup ps sv.seat_no ∧
          (∀ p, sv.occupant = some p → p ∈ ps ∧ p.seat_no = some sv.seat_no)) ∧
        pr.2.Pairwise (fun a b => seatNoLe a b = true)) ∧
      (∀ s ∈ build_seat_map v, ∃ pr ∈ build_seat_rows v ps,
        ∃ sv ∈ (pr : Nat × List SeatView).2,
          sv.seat_no = s.seat_no ∧ sv.seat_type = s.seat_type)) ∧
    ((build_seat_rows "A320"
        [⟨9, some 30, some "business", some "1A", none⟩]).all (fun pr =>
      pr.2.all (fun sv =>
        sv.occupant = if sv.seat_no = "1A"
          then some ⟨9, some 30, some "business", some "1A", none⟩ else none))) = true := by
  constructor
  · intro v ps
    refine ⟨build_seat_rows_keys_lt v ps, ?_, build_seat_rows_complete v ps⟩
    intro pr hpr
    obtain ⟨hfacts, hsorted⟩ := build_seat_rows_row_facts v ps pr hpr
    refine ⟨?_, hsorted⟩
    intro sv hsv
    obtain ⟨hrow, hmem, hocc⟩ := hfacts sv hsv
    refine ⟨hrow, hmem, hocc, ?_⟩
    intro p hp
    rw [hocc] at hp
    obtain ⟨hpmem, hpseat, _⟩ := seatLookup_mem ps sv.seat_no p hp
    exact ⟨hpmem, hpseat⟩
  · decide

theorem c9_grid_projector_witness :
    ((build_seat_rows "A320" []).map Prod.fst).Pairwise (fun a b => a < b) :=
  (c9_grid_projector.1 "A320" []).1

/-- Claim C6: validation order and atomicity of the manual seat editor. Each
rejection reason characterises exactly the first failing check in the order:
seat exists in the aircraft layout, target passenger found by id, target not
an infant, seat class equals the passenger's class, seat not held by another
passenger; the edit succeeds exactly when all five checks pass; every
rejection returns the snapshot unchanged; success records the prior seat and
writes only the target's seat_no. -/
theorem c6_validation_order (vt : String) (snap : List Passenger) (pid : Int)
    (raw : String) :
    ((update_seat vt snap pid raw).1 = EditOutcome.rejected Reason.invalidSeat ↔
      seatTypeByNo vt (normSeat raw) = none) ∧
    ((update_seat vt snap pid raw).1 = EditOutcome.rejected Reason.passengerNotFound ↔
      seatTypeByNo vt (normSeat raw) ≠ none ∧ findTarget snap pid = none) ∧
    ((update_seat vt snap pid raw).1 = EditOutcome.rejected Reason.infantForbidden ↔
      seatTypeByNo vt (normSeat raw) ≠ none ∧
        ∃ i t, findTarget snap pid = some (i, t) ∧ is_infant t = true) ∧
    (∀ c, (update_seat vt snap pid raw).1 = EditOutcome.rejected (Reason.classMismatch c) ↔
      ∃ cls i t, seatTypeByNo vt (normSeat raw) = some cls ∧
        findTarget snap pid = some (i, t) ∧ is_infant t = false ∧ cls ≠ effType t ∧
        c = effType t) ∧
    ((update_seat vt snap pid raw).1 = EditOutcome.rejected Reason.seatOccupied ↔
      ∃ cls i t, seatTypeByNo vt (normSeat raw) = some cls ∧
        findTarget snap pid = some (i, t) ∧ is_infant t = false ∧ cls = effType t ∧
        occupiedBy snap pid (normSeat raw) = true) ∧
    ((∃ old, (update_seat vt snap pid raw).1 = EditOutcome.updated old) ↔
      ∃ cls i t, seatTypeByNo vt (normSeat raw) = some cls ∧
        findTarget snap pid = some (i, t) ∧ is_infant t = false ∧ cls = effType t ∧
        occupiedBy snap pid (normSeat raw) = false) ∧
    (∀ r, (update_seat vt snap pid raw).1 = EditOutcome.rejected r →
      (update_seat vt snap pid raw).2 = snap) ∧
    (∀ i t, findTarget snap pid = some (i, t) →
      ∀ old, (update_seat vt snap pid raw).1 = EditOutcome.updated old →
        old = t.seat_no ∧
        (update_seat vt snap pid raw).2 =
          snap.set i { t with seat_no := some (normSeat raw) }) := by
  cases hm : seatTypeByNo vt (normSeat raw) with
  | none =>
    rw [update_seat_h1 vt snap pid raw hm]
    simp [hm]
  | some cls =>
    cases hf : findTarget snap pid with
    | none =>
      rw [update_seat_h2 vt snap pid raw cls hm hf]
      simp [hm, hf]
    | some it =>
      have hf2 : findTarget snap pid = some (it.1, it.2) := by
        rw [Prod.mk.eta]
        exact hf
      by_cases hinf : is_infant it.2 = true
      · rw [update_seat_h3 vt snap pid raw cls it.1 it.2 hm hf2 hinf]
        simp [hm, hf, hinf, Prod.ext_iff]
        exact ⟨it.1, it.2, ⟨rfl, rfl⟩, hinf⟩
      · have hinf2 : is_infant it.2 = false := by simpa using hinf
        by_cases hcls : cls = effType it.2
        · by_cases hocc : occupiedBy snap pid (normSeat raw) = true
          · rw [update_seat_h5 vt snap pid raw cls it.1 it.2 hm hf2 hinf2 hcls hocc]
            simp [hm, hf, hinf2, hcls, hocc, Prod.ext_iff]
            exact ⟨it.1, it.2, ⟨rfl, rfl⟩, hinf2, rfl⟩
          · have hocc2 : occupiedBy snap pid (normSeat raw) = false := by simpa using hocc
            rw [update_seat_h6 vt snap pid raw cls it.1 it.2 hm hf2 hinf2 hcls hocc2]
            simp [hm, hf, hinf2, hcls, hocc2, Prod.ext_iff]
            exact ⟨it.1, it.2, ⟨rfl, rfl⟩, hinf2, rfl⟩
        · rw [update_seat_h4 vt snap pid raw cls it.1 it.2 hm hf2 hinf2 hcls]
          simp [hm, hf, hinf2, hcls, Prod.ext_iff]
          intro c
          constructor
          · intro hc
            exact ⟨it.1, it.2, ⟨rfl, rfl⟩, hinf2, hcls, hc.symm⟩
          · rintro ⟨x, x1, ⟨h1, h2⟩, _, _, hc⟩
            rw [← h2] at hc
            exact hc.symm

theorem c6_validation_order_witness :
    (update_seat "A320" scenarioPs 2 " 1a ").1 =
        EditOutcome.rejected (Reason.classMismatch "economy") ∧
      (update_seat "A320" scenarioPs 2 " 1a ").2 = scenarioPs := by
  constructor
  · exact ((c6_validation_order "A320" scenarioPs 2 " 1a ").2.2.2.1 "economy").mpr
      ⟨"business", 1, ⟨2, some 28, some "economy", none, some 1⟩,
        by decide, by decide, by decide, by decide, by decide⟩
  · exact (c6_validation_order "A320" scenarioPs 2 " 1a ").2.2.2.2.2.2.1
      (Reason.classMismatch "economy") (by decide)

theorem buildRowsIdx_keys_lt (v : String) (u : List String) :
    ((buildRowsIdx v u).map Prod.fst).Pairwise (fun a b => a < b) := by
  have hfst : ∀ (l : List Nat) (f g2 : Nat → List String),
      ((l.map (fun r => (r, f r, g2 r))).map Prod.fst) = l := by
    intro l f g2
    induction l with
    | nil => rfl
    | cons a t ih => simp only [List.map_cons, ih]
  have hmap : ((buildRowsIdx v u).map Prod.fst) = rowKeysSorted v u := by
    rw [buildRowsIdx]
    exact hfst _ _ _
  rw [hmap, rowKeysSorted]
  have hle := pairwise_sortBy (fun a b : Nat => a ≤ b)
    (fun a b c hab hbc => by
      simp only [decide_eq_true_eq] at hab hbc ⊢
      omega)
    (fun a b => by
      rcases Nat.le_total a b with h | h
      · exact Or.inl (by simpa using h)
      · exact Or.inr (by simpa using h))
    (dedup ((freeSeatNos v u).map rowOf))
  have hnd := nodup_sortBy (fun a b : Nat => a ≤ b) _
    (nodup_dedup ((freeSeatNos v u).map rowOf))
  rw [List.Nodup] at hnd
  refine (hle.and hnd).imp ?_
  intro a b hab
  obtain ⟨h1, h2⟩ := hab
  simp only [decide_eq_true_eq] at h1
  omega

theorem processGroups_append (v : String) (rows : List (Nat × List String × List String))
    (l1 l2 : List (Int × List Nat)) (st : List Passenger × List String) :
    processGroups v rows (l1 ++ l2) st = processGroups v rows l2 (processGroups v rows l1 st) := by
  rw [processGroups, processGroups, processGroups, List.foldl_append]

/-- Claim C4: group adjacency, best effort. For any group of size 2 or 3, if
at the moment the group is processed (after the groups before it in the
processing order have been handled) some row side of the row index still
offers a free adjacent same-class block for the group's target class, then
the row scan — which walks the ascending row index trying the left side
before the right — returns a block of the group's size consisting of free
seats of the target class, and in the final output of assign_seats every
member of the group holds a seat of that block. The row index keys are
strictly ascending, and on the A320 scenario of §8 the infant stays unseated
while the two adults receive the adjacent pair 4A/4B of the first economy
row. -/
theorem c4_group_adjacency :
    (∀ (v : String) (ps : List Passenger) (l1 l2 : List (Int × List Nat))
        (g : Int × List Nat) (stB : List Passenger × List String),
      sortGroupsDesc (collectGroups (ps.map normalizePass)) = l1 ++ g :: l2 →
      (g.2.length = 2 ∨ g.2.length = 3) →
      stB = processGroups v (buildRowsIdx v (usedInit ps)) l1
        (ps.map normalizePass, usedInit ps) →
      (∃ e ∈ buildRowsIdx v (usedInit ps),
        find_adjacent_block v stB.2 (e : Nat × List String × List String).1 e.2.1
            g.2.length (wantedOf stB.1 g.2) ≠ none ∨
          find_adjacent_block v stB.2 e.1 e.2.2 g.2.length (wantedOf stB.1 g.2) ≠ none) →
      ∃ block,
        scanRows v stB.2 (buildRowsIdx v (usedInit ps)) g.2.length (wantedOf stB.1 g.2)
          = some block ∧
        block.length = g.2.length ∧
        (∀ sn ∈ block, sn ∉ stB.2 ∧ seatTypeByNo v sn = some (wantedOf stB.1 g.2)) ∧
        (∀ i ∈ g.2, ∃ p, (assign_seats v ps)[i]? = some p ∧
          ∃ sn ∈ block, p.seat_no = some sn)) ∧
    (∀ (v : String) (u : List String),
      ((buildRowsIdx v u).map Prod.fst).Pairwise (fun a b => a < b)) ∧
    assign_seats "A320" scenarioPs =
      [⟨1, some 2, some "economy", none, some 1⟩,
        ⟨2, some 28, some "economy", some "4A", some 1⟩,
        ⟨3, some 30, some "economy", some "4B", some 1⟩] := by
  refine ⟨?_, buildRowsIdx_keys_lt, by decide⟩
  intro v ps l1 l2 g stB hdec hsz hstB hex
  have hrows := rowsOk_buildRowsIdx v (usedInit ps)
  have hscan : scanRows v stB.2 (buildRowsIdx v (usedInit ps)) g.2.length
      (wantedOf stB.1 g.2) ≠ none := scanRows_isSome v stB.2 _ _ _ hex
  cases hbl : scanRows v stB.2 (buildRowsIdx v (usedInit ps)) g.2.length
      (wantedOf stB.1 g.2) with
  | none => exact absurd hbl hscan
  | some block =>
    obtain ⟨hlen, hnd, hfacts⟩ := scanRows_some_facts v stB.2 _ _ _ block hrows hbl
    have hgmem : g ∈ sortGroupsDesc (collectGroups (ps.map normalizePass)) := by
      rw [hdec]
      exact List.mem_append.mpr (Or.inr (List.mem_cons_self _ _))
    have hgcg : (g.1, g.2) ∈ collectGroups (ps.map normalizePass) := by
      rw [Prod.mk.eta]
      exact mem_sortGroupsDesc _ g hgmem
    have hgood := collectGroups_good (ps.map normalizePass) g.1 g.2 hgcg
    have hstBInv : EngineInv False v (ps.map normalizePass) (usedInit ps) stB := by
      rw [hstB]
      apply engineInv_processGroups False v _ _ _ _ _ hrows
      · intro g2 hg2
        have hg2gs : g2 ∈ sortGroupsDesc (collectGroups (ps.map normalizePass)) := by
          rw [hdec]
          exact List.mem_append.mpr (Or.inl hg2)
        have hg2cg : (g2.1, g2.2) ∈ collectGroups (ps.map normalizePass) := by
          rw [Prod.mk.eta]
          exact mem_sortGroupsDesc _ g2 hg2gs
        exact ⟨collectGroups_good (ps.map normalizePass) g2.1 g2.2 hg2cg, hg2cg⟩
      · exact ⟨fun h => h.elim, frameOk_init v ps, fun x hx => hx⟩
    have hlenB : stB.1.length = (ps.map normalizePass).length := hstBInv.2.1.1
    refine ⟨block, rfl, hlen, fun sn hsn => ⟨(hfacts sn hsn).1, (hfacts sn hsn).2.2⟩, ?_⟩
    intro i hi
    obtain ⟨p0, hp0, _, _, _⟩ := hgood i hi
    have hilen : i < stB.1.length := by
      rw [hlenB]
      exact (List.getElem?_eq_some_iff.mp hp0).1
    have hzip : ∃ sn0, (i, sn0) ∈ g.2.zip block := by
      have hmapfst : (g.2.zip block).map Prod.fst = g.2 :=
        List.map_fst_zip g.2 block (by omega)
      rw [← hmapfst] at hi
      obtain ⟨pr, hpr, hpr1⟩ := List.mem_map.mp hi
      exact ⟨pr.2, by rw [← hpr1, Prod.mk.eta]; exact hpr⟩
    obtain ⟨sn0, hsn0⟩ := hzip
    obtain ⟨p, hpfin, q, hqmem, hq1, hqs⟩ :=
      assignBlock_mem stB (g.2.zip block) (i, sn0) hsn0 hilen
    have hqblock : q.2 ∈ block := (List.mem_zip hqmem).2
    have hstep : processGroup v (buildRowsIdx v (usedInit ps)) stB g =
        assignBlock stB (g.2.zip block) := by
      rw [processGroup, hbl]
    have hst1 : engineSt1 v ps = processGroups v (buildRowsIdx v (usedInit ps)) l2
        (processGroup v (buildRowsIdx v (usedInit ps)) stB g) := by
      rw [engineSt1, hdec, processGroups_append]
      rw [show processGroups v (buildRowsIdx v (usedInit ps)) (g :: l2)
          (processGroups v (buildRowsIdx v (usedInit ps)) l1
            (ps.map normalizePass, usedInit ps)) =
        processGroups v (buildRowsIdx v (usedInit ps)) l2
          (processGroup v (buildRowsIdx v (usedInit ps))
            (processGroups v (buildRowsIdx v (usedInit ps)) l1
              (ps.map normalizePass, usedInit ps)) g) from rfl]
      rw [← hstB]
    have hdisj := sorted_groups_disjoint (ps.map normalizePass) l1 l2 g hdec i hi
    have hst1i : (engineSt1 v ps).1[i]? = some p := by
      rw [hst1, processGroups_frame v _ l2 _ i hdisj, hstep]
      exact hpfin
    have htruthy : hasSeat p = true := by
      rw [hasSeat, hqs]
      have hne := (hfacts q.2 hqblock).2.1
      simpa using hne
    have hfinal : (assign_seats v ps)[i]? = some p := by
      rw [assign_seats_eq_engineFinal, engineFinal]
      exact indivStep_frame _ _ _ _ i p hst1i htruthy
    exact ⟨p, hfinal, q.2, hqblock, hqs⟩

theorem c4_group_adjacency_witness :
    (sortGroupsDesc (collectGroups (scenarioPs.map normalizePass)) =
        [] ++ ((1 : Int), [1, 2]) :: []) ∧
      (([1, 2] : List Nat).length = 2 ∨ ([1, 2] : List Nat).length = 3) ∧
      ∃ block,
        scanRows "A320"
            (processGroups "A320" (buildRowsIdx "A320" (usedInit scenarioPs)) []
              (scenarioPs.map normalizePass, usedInit scenarioPs)).2
            (buildRowsIdx "A320" (usedInit scenarioPs)) ([1, 2] : List Nat).length
            (wantedOf (processGroups "A320" (buildRowsIdx "A320" (usedInit scenarioPs)) []
              (scenarioPs.map normalizePass, usedInit scenarioPs)).1 [1, 2]) = some block ∧
          block.length = ([1, 2] : List Nat).length ∧
          (∀ sn ∈ block,
            sn ∉ (processGroups "A320" (buildRowsIdx "A320" (usedInit scenarioPs)) []
              (scenarioPs.map normalizePass, usedInit scenarioPs)).2 ∧
            seatTypeByNo "A320" sn =
              some (wantedOf (processGroups "A320"
                (buildRowsIdx "A320" (usedInit scenarioPs)) []
                (scenarioPs.map normalizePass, usedInit scenarioPs)).1 [1, 2])) ∧
          (∀ i ∈ ([1, 2] : List Nat), ∃ p, (assign_seats "A320" scenarioPs)[i]? = some p ∧
            ∃ sn ∈ block, p.seat_no = some sn) := by
  refine ⟨by decide, Or.inl rfl, ?_⟩
  exact c4_group_adjacency.1 "A320" scenarioPs [] [] (1, [1, 2])
    (processGroups "A320" (buildRowsIdx "A320" (usedInit scenarioPs)) []
      (scenarioPs.map normalizePass, usedInit scenarioPs))
    (by decide) (Or.inl rfl) rfl (by decide)

